import Mathlib

/-!
Verification of the event classification and list-export engine of the
`gps-admin` repository (src/js/event-list-export.js and the
`EventProcessor` classifier replicated in src/tests/analytics-filtering.test.js).

Titles are modelled as `List Char`; the JavaScript regular expressions of the
rule tables are translated into dedicated executable scanners.  All scanned
patterns begin and end with word characters (letters, digits), so a `\b`
boundary on either side of a pattern is equivalent to "the adjacent character
is absent or not a word character"; the scanners implement exactly that.
-/

/-- Titles and other JavaScript strings are modelled as lists of characters. -/
abbrev Str := List Char

/-- Shorthand turning a Lean string literal into the `Str` model. -/
def w (s : String) : Str := s.toList

/-- JavaScript `\w` (ASCII word character: letter, digit or underscore). -/
def isWordChar (c : Char) : Bool := c.isAlphanum || c == '_'

/-- JavaScript `\s` restricted to the ASCII whitespace characters that occur
in the repository's data (space, tab, newline, carriage return, vertical tab,
form feed). -/
def isSpaceChar (c : Char) : Bool :=
  c == ' ' || c == '\t' || c == '\n' || c == '\r' || c == '\x0b' || c == '\x0c'

/-- `String.prototype.trim` (left part): drop leading whitespace. -/
def trimLeft (s : Str) : Str := s.dropWhile isSpaceChar

/-- `String.prototype.trim` (right part): drop trailing whitespace. -/
def trimRight (s : Str) : Str := (s.reverse.dropWhile isSpaceChar).reverse

/-- `String.prototype.trim`. -/
def trimStr (s : Str) : Str := trimRight (trimLeft s)

/-- `String.prototype.toLowerCase` (ASCII; the patterns are ASCII). -/
def lowerStr (s : Str) : Str := s.map Char.toLower

/-- Case-insensitive literal prefix match: `strCI pat s` returns the rest of
`s` after the pattern when `s` starts (case-insensitively) with `pat`
(`pat` is given in lowercase). -/
def strCI : Str → Str → Option Str
  | [], s => some s
  | _ :: _, [] => none
  | p :: ps, c :: cs => if c.toLower == p then strCI ps cs else none

/-- Match a sequence of literal segments separated by `\s*` (as in
`Meet\s*&\s*Greet` or `nail\s*trim`).  Each segment after the first may be
preceded by any amount of whitespace.  Deterministic because every segment
begins with a non-space character. -/
def matchSegsCI : List Str → Str → Option Str
  | [], s => some s
  | [seg], s => strCI seg s
  | seg :: rest, s =>
    match strCI seg s with
    | none => none
    | some r => matchSegsCI rest (r.dropWhile isSpaceChar)

/-- Trailing `\b` for a pattern ending in a word character: the next
character is absent or not a word character. -/
def boundaryOk (rest : Str) : Bool :=
  match rest with
  | [] => true
  | c :: _ => !(isWordChar c)

/-- Scan every position of the string, invoking `check` on the suffix at each
position where the preceding character is absent or not a word character
(the `\b` condition for patterns that begin with a word character). -/
def scanAux (check : Str → Bool) : Str → Bool → Bool
  | [], prevW => !prevW && check []
  | c :: rest, prevW => (!prevW && check (c :: rest)) || scanAux check rest (isWordChar c)

/-- `\b(alt1|alt2|...)\b` tested with `RegExp.prototype.test` (case
insensitive): some alternative (given as its `\s*`-separated segments)
occurs somewhere in the string with word boundaries on both sides. -/
def containsWB (alts : List (List Str)) (s : Str) : Bool :=
  scanAux (fun suf =>
    alts.any (fun segs =>
      match matchSegsCI segs suf with
      | some r => boundaryOk r
      | none => false)) s false

/-- Case-sensitive literal prefix test. -/
def startsWithStr : Str → Str → Bool
  | [], _ => true
  | _ :: _, [] => false
  | p :: ps, c :: cs => c == p && startsWithStr ps cs

/-- Plain case-sensitive substring containment (`String.prototype.includes`). -/
def containsSubstr (pat : Str) : Str → Bool
  | [] => pat.isEmpty
  | c :: rest => startsWithStr pat (c :: rest) || containsSubstr pat rest

/- ### The classifier rule tables
(`EventProcessor` in src/tests/analytics-filtering.test.js, lines 7-69). -/

/-- `personalEventPatterns.offDay : /^\s*✨\s*off\s*✨|^\s*off\s*[-–]/i`,
first (anchored) alternative. -/
def offDayBranch1 (s : Str) : Bool :=
  match strCI (w "✨") (s.dropWhile isSpaceChar) with
  | none => false
  | some r1 =>
    match strCI (w "off") (r1.dropWhile isSpaceChar) with
    | none => false
    | some r2 =>
      match strCI (w "✨") (r2.dropWhile isSpaceChar) with
      | some _ => true
      | none => false

/-- `personalEventPatterns.offDay`, second (anchored) alternative
`^\s*off\s*[-–]`. -/
def offDayBranch2 (s : Str) : Bool :=
  match strCI (w "off") (s.dropWhile isSpaceChar) with
  | none => false
  | some r =>
    match r.dropWhile isSpaceChar with
    | c :: _ => c == '-' || c == '–'
    | [] => false

/-- `personalEventPatterns.offDay`. -/
def offDayTest (s : Str) : Bool := offDayBranch1 s || offDayBranch2 s

/-- `personalEventPatterns.personalKeywords :
/\b(lunch|appointment with|therapy|birthday|anniversary|shower)\b/i`. -/
def personalKeywordsTest (s : Str) : Bool :=
  containsWB [[w "lunch"], [w "appointment with"], [w "therapy"],
    [w "birthday"], [w "anniversary"], [w "shower"]] s

/-- `personalEventPatterns.medicalPersonal :
/\b(doctor|dentist|massage|nails|haircut|tattoo|yoga|acupuncture)\b/i`. -/
def medicalPersonalTest (s : Str) : Bool :=
  containsWB [[w "doctor"], [w "dentist"], [w "massage"], [w "nails"],
    [w "haircut"], [w "tattoo"], [w "yoga"], [w "acupuncture"]] s

/-- `personalEventPatterns.household : /\b(house clean|kroger|grocery)\b/i`. -/
def householdTest (s : Str) : Bool :=
  containsWB [[w "house clean"], [w "kroger"], [w "grocery"]] s

/-- `personalEventPatterns.socialBusiness : /\b(momentum|meeting with|webinar)\b/i`. -/
def socialBusinessTest (s : Str) : Bool :=
  containsWB [[w "momentum"], [w "meeting with"], [w "webinar"]] s

/-- `workEventPatterns.meetAndGreet : /\b(MG|M&G|Meet\s*&\s*Greet)\b/i`. -/
def meetAndGreetTest (s : Str) : Bool :=
  containsWB [[w "mg"], [w "m&g"], [w "meet", w "&", w "greet"]] s

/-- `workEventPatterns.nailTrim : /\b(nail\s*trim)\b/i`. -/
def nailTrimTest (s : Str) : Bool :=
  containsWB [[w "nail", w "trim"]] s

/-- The optional sequence-marker tail
`\s*[-–]?\s*(Start|1st|2nd|3rd|Last)` followed by `$`.  Deterministic:
the marker alternatives begin with characters that are neither whitespace
nor a dash. -/
def seqMarkerTail (r : Str) : Bool :=
  let r1 := r.dropWhile isSpaceChar
  let r2 := match r1 with
    | c :: t => if c == '-' || c == '–' then t else r1
    | [] => r1
  let r3 := r2.dropWhile isSpaceChar
  [w "start", w "1st", w "2nd", w "3rd", w "last"].any (fun m =>
    match strCI m r3 with
    | some rest => rest.isEmpty
    | none => false)

/-- After the token: either the string ends (`$` with the optional group
empty) or the sequence-marker tail consumes everything to the end. -/
def suffixTailOk (r : Str) : Bool := r.isEmpty || seqMarkerTail r

/-- `\b(tok1|tok2|...)\b(?:\s*[-–]?\s*(Start|1st|2nd|3rd|Last))?$` tested
anywhere in the string. -/
def tokenSuffixTest (toks : List Str) (s : Str) : Bool :=
  scanAux (fun suf =>
    toks.any (fun tok =>
      match strCI tok suf with
      | some r => boundaryOk r && suffixTailOk r
      | none => false)) s false

/-- `workEventPatterns.minutesSuffix :
/\b(15|20|30|45|60)\b(?:\s*[-–]?\s*(Start|1st|2nd|3rd|Last))?$/i`. -/
def minutesSuffixTest (s : Str) : Bool :=
  tokenSuffixTest [w "15", w "20", w "30", w "45", w "60"] s

/-- `workEventPatterns.houseSitSuffix :
/\b(HS|Housesit)\b(?:\s*[-–]?\s*(Start|1st|2nd|3rd|Last))?$/i`. -/
def houseSitSuffixTest (s : Str) : Bool :=
  tokenSuffixTest [w "hs", w "housesit"] s

/- ### Parenthetical removal (`title.replace(/\([^)]*\)/g, '')`). -/

/-- The suffix after the first `)` of the string, when one exists
(the span `[^)]*\)` consumed by the regex from an opening parenthesis). -/
def afterClose : Str → Option Str
  | [] => none
  | c :: rest => if c == ')' then some rest else afterClose rest

/-- `title.replace(/\([^)]*\)/g, '')`: a left-to-right scan removing each
`(` together with everything up to (and including) the next `)`; a `(` with
no following `)` is kept.  Structural recursion on a fuel argument so that
the kernel can evaluate the function; the fuel is at least the string length
at every call. -/
def removeParensF : Nat → Str → Str
  | 0, _ => []
  | _ + 1, [] => []
  | fuel + 1, c :: rest =>
    if c == '(' then
      match afterClose rest with
      | some r => removeParensF fuel r
      | none => c :: removeParensF fuel rest
    else
      c :: removeParensF fuel rest

/-- `title.replace(/\([^)]*\)/g, '')`. -/
def removeParens (s : Str) : Str := removeParensF s.length s

/- ### The classifier (src/tests/analytics-filtering.test.js lines 25-68). -/

/-- `EventProcessor.cleanTitle`: strip parenthetical annotations, then trim;
empty input yields the empty string. -/
def cleanTitle (title : Str) : Str :=
  if title.isEmpty then [] else trimStr (removeParens title)

/-- `EventProcessor.isDefinitelyPersonal`: the trimmed title matches some
pattern of the personal rule table (`Object.values(...).some`). -/
def isDefinitelyPersonal (title : Str) : Bool :=
  if title.isEmpty then false else
  let trimmedTitle := trimStr title
  offDayTest trimmedTitle || personalKeywordsTest trimmedTitle ||
    medicalPersonalTest trimmedTitle || householdTest trimmedTitle ||
    socialBusinessTest trimmedTitle

/-- `EventProcessor.isWorkEvent` on a string title: personal patterns veto
first; otherwise the parenthetical-stripped title is tested against the
work rule table. -/
def isWorkEvent (title : Str) : Bool :=
  if title.isEmpty then false else
  let trimmedTitle := trimStr title
  if isDefinitelyPersonal trimmedTitle then false else
  let cleanedTitle := cleanTitle trimmedTitle
  meetAndGreetTest cleanedTitle || minutesSuffixTest cleanedTitle ||
    houseSitSuffixTest cleanedTitle || nailTrimTest cleanedTitle

/- ### Data model: timestamps and events.

Timestamps are modelled at minute precision in a DST-free local calendar:
`new Date(...)` ordering and differences are represented through the civil
day number plus minute of day, so one calendar day is exactly 86 400 000 ms
(the repository's date arithmetic divides by that constant). -/

/-- A calendar date as exposed by the JavaScript `Date` getters:
`getFullYear`, `getMonth` (0-based) and `getDate` (1-based). -/
structure CivilDate where
  year : Int
  month : Int
  day : Int
deriving DecidableEq, Repr

/-- Days since 1970-01-01 of a proleptic-Gregorian date given with a
1-based month (standard civil-from-days algorithm; `Int.ediv` is floor
division for positive divisors). -/
def daysFromCivil (y0 m d : Int) : Int :=
  let y := if m ≤ 2 then y0 - 1 else y0
  let era := y.ediv 400
  let yoe := y - era * 400
  let doy := (153 * (m + (if m > 2 then -3 else 9)) + 2).ediv 5 + d - 1
  let doe := yoe * 365 + yoe.ediv 4 - yoe.ediv 100 + doy
  era * 146097 + doe - 719468

/-- Day number of a `CivilDate` (month stored 0-based as in `getMonth`). -/
def civilDays (dt : CivilDate) : Int := daysFromCivil dt.year (dt.month + 1) dt.day

/-- Inverse of `daysFromCivil` (standard algorithm); used for the
`setDate(getDate() - day)` arithmetic of `getWeekStart`. -/
def civilFromDays (z0 : Int) : CivilDate :=
  let z := z0 + 719468
  let era := z.ediv 146097
  let doe := z - era * 146097
  let yoe := (doe - doe.ediv 1460 + doe.ediv 36524 - doe.ediv 146096).ediv 365
  let y := yoe + era * 400
  let doy := doe - (365 * yoe + yoe.ediv 4 - yoe.ediv 100)
  let mp := (5 * doy + 2).ediv 153
  let d := doy - (153 * mp + 2).ediv 5 + 1
  let m := mp + (if mp < 10 then 3 else -9)
  { year := if m ≤ 2 then y + 1 else y, month := m - 1, day := d }

/-- An instant: its local calendar date plus hour and minute of day. -/
structure Timestamp where
  date : CivilDate
  hour : Int
  minute : Int
deriving DecidableEq, Repr

/-- The linear value of a timestamp in minutes since the epoch; it has the
same ordering and differences (up to the 60 000 ms-per-minute factor) as
the JavaScript `Date` value it models. -/
def tsValue (t : Timestamp) : Int := civilDays t.date * 1440 + t.hour * 60 + t.minute

/-- An event record (src spec §3).  `endTime` models the source field
`end` (a Lean keyword); `type` is the optional coarse category string;
a missing `location` is the empty string (both are falsy in JavaScript). -/
structure Event where
  title : Str
  start : Timestamp
  endTime : Timestamp
  location : Str
  type : Option Str
deriving DecidableEq, Repr

/-- `EventProcessor.isWorkEvent` applied to an event object
(`titleOrEvent?.title`). -/
def isWorkEventEv (e : Event) : Bool := isWorkEvent e.title

/-- Modelled from the spec: `EventProcessor.isOvernightEvent` is referenced
throughout src/js/event-list-export.js but its definition is not among the
source files (only callers and test doubles are).  Spec §4.2 classifies an
event as an overnight/housesit span "by title pattern or explicit `type`";
the housesit title pattern is `workEventPatterns.houseSitSuffix`. -/
def isOvernightEvent (e : Event) : Bool :=
  houseSitSuffixTest e.title || e.type == some (w "overnight")

/- ### EventListExporter (src/js/event-list-export.js). -/

/-- Milliseconds per day (`1000 * 60 * 60 * 24`). -/
def msPerDay : Int := 86400000

/-- `Math.ceil(a / b)` for integers with `b > 0`. -/
def ceilDivInt (a b : Int) : Int := (a + b - 1).ediv b

/-- `calculateOvernightNights` (lines 16-33): midnight-normalize both ends,
take the difference in milliseconds, `Math.ceil` the day count, floor at 1;
0 for non-overnight events.  In the DST-free model the millisecond
difference of two local midnights is an exact multiple of `msPerDay`. -/
def calculateOvernightNights (e : Event) : Int :=
  if !(isOvernightEvent e) then 0 else
  let startDay := e.start.date
  let endDay := e.endTime.date
  let diffTime := (civilDays endDay - civilDays startDay) * msPerDay
  let diffDays := ceilDivInt diffTime msPerDay
  max 1 diffDays

/-- `isEndOvernightMarker` (lines 40-46):
`/\b(end\s*(overnight|hs|housesit))\b/i` tested on the lowercased title. -/
def isEndOvernightMarker (e : Event) : Bool :=
  let titleLower := lowerStr e.title
  containsWB [[w "end", w "overnight"], [w "end", w "hs"], [w "end", w "housesit"]]
    titleLower

/-- `shouldIncludeEventOnDate` (lines 56-78).  The final comparison models
`eventStartDay.getTime() === checkDay.getTime()` on the two
midnight-normalized dates. -/
def shouldIncludeEventOnDate (e : Event) (checkDate : Option Timestamp) : Bool :=
  if isEndOvernightMarker e then false
  else if !(isOvernightEvent e) then true
  else
    match checkDate with
    | none => true
    | some cd => decide (e.start.date = cd.date)

/-- Decimal digits of a natural number (structural on a fuel that always
covers the number). -/
def natToStrF : Nat → Nat → Str
  | 0, _ => []
  | fuel + 1, n =>
    if n < 10 then [Char.ofNat (48 + n)]
    else natToStrF fuel (n / 10) ++ [Char.ofNat (48 + n % 10)]

/-- JavaScript number-to-string for a nonnegative integer. -/
def natToStr (n : Nat) : Str := natToStrF (n + 1) n

/-- JavaScript number-to-string (template-literal interpolation) for an
integer value. -/
def intToStr (i : Int) : Str :=
  if i < 0 then '-' :: natToStr (-i).toNat else natToStr i.toNat

/-- `String(x).padStart(2, '0')`. -/
def pad2 (i : Int) : Str :=
  let s := intToStr i
  if s.length < 2 then '0' :: s else s

/-- `formatDate` (lines 147-153) on a midnight-normalized date:
`MM/DD/YYYY`. -/
def formatDateCivil (d : CivilDate) : Str :=
  pad2 (d.month + 1) ++ w "/" ++ pad2 d.day ++ w "/" ++ intToStr d.year

/-- `formatDate` (lines 147-153). -/
def formatDate (t : Timestamp) : Str := formatDateCivil t.date

/-- `formatTime` (lines 160-171): 12-hour clock, `H:MM AM/PM`. -/
def formatTime (t : Timestamp) : Str :=
  let ampm := if t.hour ≥ 12 then w "PM" else w "AM"
  let h12 := t.hour.emod 12
  let h12 := if h12 == 0 then (12 : Int) else h12
  let minuteStr := if t.minute < 10 then '0' :: intToStr t.minute else intToStr t.minute
  intToStr h12 ++ w ":" ++ minuteStr ++ w " " ++ ampm

/-- The three dash characters of `extractClientName`'s regex `[-–—]`. -/
def isDashChar (c : Char) : Bool := c == '-' || c == '–' || c == '—'

/-- `name.replace(/\b(tok1|tok2|...)\s*$/i, '')`: when the string ends in
optional whitespace preceded by one of the tokens with a word boundary
before it, drop that token and the trailing whitespace; otherwise return
the string unchanged.  (Every token starts with a word character, so the
leading `\b` is "previous character absent or not a word character".) -/
def stripTrailingTokens (toks : List Str) (name : Str) : Str :=
  let rev := name.reverse
  let rev1 := rev.dropWhile isSpaceChar
  match toks.find? (fun tok =>
    match strCI tok.reverse rev1 with
    | some before =>
      (match before with
       | [] => true
       | c :: _ => !(isWordChar c))
    | none => false) with
  | some tok => (rev1.drop tok.length).reverse
  | none => name

/-- `extractClientName` (lines 121-140): strip parentheticals and trim;
take the maximal prefix free of dash/en-dash/em-dash (the match of
`^([^-–—]+)`); when that prefix is empty (empty title or leading dash) the
match fails and the cleaned title is returned as is; otherwise trim and
strip a trailing duration token and then a trailing service marker. -/
def extractClientName (title : Str) : Str :=
  if title.isEmpty then [] else
  let cleaned := trimStr (removeParens title)
  let beforeDash := cleaned.takeWhile (fun c => !(isDashChar c))
  if beforeDash.isEmpty then cleaned
  else
    let name := trimStr beforeDash
    let name := trimStr (stripTrailingTokens [w "15", w "20", w "30", w "45", w "60"] name)
    let name := trimStr (stripTrailingTokens [w "mg", w "m&g", w "hs", w "housesit"] name)
    name

/-- First (leftmost) match of `\b(tok1|tok2|...)\b` in the string, returning
the matched token; models `title.match(...)[1]`.  The tokens are distinct
literals, so at any one position at most one alternative matches. -/
def firstTokenWB (toks : List Str) : Str → Bool → Option Str
  | [], _ => none
  | c :: rest, prevW =>
    match (if prevW then none
           else toks.find? (fun tok =>
             match strCI tok (c :: rest) with
             | some r => boundaryOk r
             | none => false)) with
    | some tok => some tok
    | none => firstTokenWB toks rest (isWordChar c)

/-- `formatServiceType` (lines 85-114): a first-match-wins cascade of
overnight label, nail-trim substring, duration token, meet-and-greet
pattern, then the `type`-based fallback. -/
def formatServiceType (e : Event) : Str :=
  let title := e.title
  let titleLower := lowerStr title
  if isOvernightEvent e then
    let nights := calculateOvernightNights e
    let nightLabel := if nights == 1 then w "1 night" else intToStr nights ++ w " nights"
    w "Overnight (" ++ nightLabel ++ w ")"
  else if containsSubstr (w "nail trim") titleLower then w "Nail Trim"
  else
    match firstTokenWB [w "15", w "20", w "30", w "45", w "60"] title false with
    | some tok => tok ++ w "-min"
    | none =>
      if meetAndGreetTest title then w "Meet & Greet"
      else if e.type == some (w "walk") then w "Dog Walk" else w "Visit"

/-- Three-way code-point comparison of strings; models the sign behaviour
of `String.prototype.localeCompare` on the repository's ASCII labels. -/
def lcmp : Str → Str → Int
  | [], [] => 0
  | [], _ :: _ => -1
  | _ :: _, [] => 1
  | a :: as, b :: bs => if a < b then -1 else if b < a then 1 else lcmp as bs

/-- `compareEvents` (lines 180-201).  The `switch` shares one branch for
`case 'date'` and `default`, so every unrecognized sort field compares
chronologically. -/
def compareEvents (a b : Event) (sortField : Str) : Int :=
  if sortField == w "client" then
    lcmp (lowerStr (extractClientName a.title)) (lowerStr (extractClientName b.title))
  else if sortField == w "service" then
    lcmp (lowerStr (formatServiceType a)) (lowerStr (formatServiceType b))
  else if sortField == w "time" then
    (a.start.hour * 60 + a.start.minute) - (b.start.hour * 60 + b.start.minute)
  else
    tsValue a.start - tsValue b.start

/-- One `{sortBy, sortOrder}` level of a sort specification. -/
structure SortLevel where
  sortBy : Str
  sortOrder : Str
deriving DecidableEq, Repr

/-- The comparator closure of `sortEventsMultiLevel` (lines 217-233):
levels in order, first nonzero comparison wins (negated for `desc`),
final tie-breaker is the start timestamp ascending. -/
def multiCmp (levels : List SortLevel) (a b : Event) : Int :=
  match levels with
  | [] => tsValue a.start - tsValue b.start
  | level :: rest =>
    let comparison := compareEvents a b level.sortBy
    let comparison := if level.sortOrder == w "desc" then -comparison else comparison
    if comparison != 0 then comparison else multiCmp rest a b

/-- `sortEventsMultiLevel` (lines 209-234): an empty specification defaults
to `[{time, asc}]`; the list is then stably sorted by the comparator
(ECMAScript `Array.prototype.sort` is a stable sort consistent with its
comparator, modelled by a stable merge sort). -/
def sortEventsMultiLevel (events : List Event) (sortLevels : List SortLevel) : List Event :=
  let levels := if sortLevels.isEmpty then [⟨w "time", w "asc"⟩] else sortLevels
  events.mergeSort (fun a b => decide (multiCmp levels a b ≤ 0))

/-- The comparator closure of the legacy `sortEvents` (lines 244-260). -/
def sortEventsCmp (primarySort : Str) (secondarySort : Option Str)
    (sortOrder : Str) (a b : Event) : Int :=
  let c1 := compareEvents a b primarySort
  let c2 := if c1 == 0 then
      (match secondarySort with
       | some s => compareEvents a b s
       | none => c1)
    else c1
  let c3 := if c2 == 0 && primarySort != w "date" && secondarySort != some (w "date")
    then compareEvents a b (w "date") else c2
  if sortOrder == w "desc" then -c3 else c3

/-- `sortEvents` (lines 244-260), used by `generateCSV`. -/
def sortEvents (events : List Event) (primarySort : Str)
    (secondarySort : Option Str) (sortOrder : Str) : List Event :=
  events.mergeSort (fun a b => decide (sortEventsCmp primarySort secondarySort sortOrder a b ≤ 0))

/-- `getWeekStart` (lines 838-844): move back to the containing Sunday and
normalize to midnight.  `getDay` is day-of-week with day 0 = Sunday;
1970-01-01 (day number 0) was a Thursday. -/
def getWeekStart (t : Timestamp) : CivilDate :=
  let days := civilDays t.date
  let day := (days + 4).emod 7
  civilFromDays (days - day)

/-- `getWeekLabel` (lines 861-864). -/
def getWeekLabel (t : Timestamp) : Str :=
  w "Week of " ++ formatDateCivil (getWeekStart t)

/-- `getMonthLabel` (lines 871-875): `MM/YYYY`. -/
def getMonthLabel (t : Timestamp) : Str :=
  pad2 (t.date.month + 1) ++ w "/" ++ intToStr t.date.year

/-- `getGroupKey` (lines 1092-1109); any unrecognized group type falls to
the literal `'Unknown'` bucket label. -/
def getGroupKey (e : Event) (groupType : Str) : Str :=
  if groupType == w "client" then extractClientName e.title
  else if groupType == w "service" then formatServiceType e
  else if groupType == w "date" then formatDate e.start
  else if groupType == w "week" then getWeekLabel e.start
  else if groupType == w "month" then getMonthLabel e.start
  else w "Unknown"

/- ### Grouping engine (lines 1035-1248). -/

/-- A group tree: a leaf list of events, or an ordered map from group key
to child (the source's nested `Map`, insertion-ordered). -/
inductive GroupNode where
  | leaf : List Event → GroupNode
  | node : List (Str × GroupNode) → GroupNode
deriving Repr

/-- Append an event to its key's bucket, creating the bucket at the end on
first sight (the insertion-order behaviour of the JavaScript `Map`). -/
def insertBucket (key : Str) (e : Event) :
    List (Str × List Event) → List (Str × List Event)
  | [] => [(key, [e])]
  | (k, es) :: t =>
    if k = key then (k, es ++ [e]) :: t else (k, es) :: insertBucket key e t

/-- Bucket the events by a key function, preserving discovery order of keys
and arrival order inside each bucket (the `events.forEach` loop of
`buildNestedGroups`). -/
def bucketBy (f : Event → Str) (events : List Event) : List (Str × List Event) :=
  events.foldl (fun acc e => insertBucket (f e) e acc) []

/-- `buildNestedGroups` (lines 1059-1084): group by the first level, then
recursively group every bucket by the remaining levels; no levels left
gives a flat leaf. -/
def buildNestedGroups : List Event → List Str → GroupNode
  | events, [] => .leaf events
  | events, currentLevel :: remainingLevels =>
    .node ((bucketBy (fun e => getGroupKey e currentLevel) events).map
      (fun kv => (kv.1, buildNestedGroups kv.2 remainingLevels)))

mutual

/-- `countEvents` (lines 1238-1248): the length of a leaf list, and the
recursive sum over all children of an inner node. -/
def countEvents : GroupNode → Nat
  | .leaf es => es.length
  | .node kids => countKids kids

/-- The `for (const value of data.values())` summation loop of `countEvents`. -/
def countKids : List (Str × GroupNode) → Nat
  | [] => 0
  | (_, g) :: t => countEvents g + countKids t

end

mutual

/-- All events stored at the leaves of a group tree, in tree order; this is
the reference reading of "total leaf count under a node" from the spec. -/
def flattenEvents : GroupNode → List Event
  | .leaf es => es
  | .node kids => flattenKids kids

/-- Leaf events of a forest of children. -/
def flattenKids : List (Str × GroupNode) → List Event
  | [] => []
  | (_, g) :: t => flattenEvents g ++ flattenKids t

end

/-- Split a string at every occurrence of a separator character
(`String.prototype.split`). -/
def splitOn (sep : Char) : Str → List Str
  | [] => [[]]
  | c :: rest =>
    let r := splitOn sep rest
    if c == sep then [] :: r
    else
      match r with
      | [] => [[c]]
      | h :: t => (c :: h) :: t

/-- JavaScript `Number(s)` on the digit strings produced by the date labels:
the empty string is 0, a pure digit string is its value, anything else is
`NaN` (modelled as `none`). -/
def parseNumber (s : Str) : Option Int :=
  if s.isEmpty then some 0
  else if s.all Char.isDigit then
    some (s.foldl (fun acc c => acc * 10 + ((c.toNat : Int) - 48)) 0)
  else none

/-- `parseGroupKeyToDate` (lines 1211-1231) reduced to the day number of the
parsed date; `none` models an invalid date (`NaN` components, or the
unparseable fallback `new Date(key)` for arbitrary key text). -/
def parseGroupKeyToDate (key : Str) (groupType : Str) : Option Int :=
  if groupType == w "date" then
    match (splitOn '/' key).map parseNumber with
    | some month :: some day :: some year :: _ =>
      some (daysFromCivil year month day)
    | _ => none
  else if groupType == w "week" then
    -- `key.match(/Week of (.+)/)` on the generated labels: the text after
    -- the leading "Week of ".
    if startsWithStr (w "Week of ") key then
      match (splitOn '/' (key.drop (w "Week of ").length)).map parseNumber with
      | some month :: some day :: some year :: _ =>
        some (daysFromCivil year month day)
      | _ => none
    else none
  else if groupType == w "month" then
    match (splitOn '/' key).map parseNumber with
    | some month :: some year :: _ => some (daysFromCivil year month 1)
    | _ => none
  else none

/-- The chronological key comparator of `sortGroupKeys`: `dateA - dateB`.
A comparison involving an invalid date is `NaN` in JavaScript, for which
`Array.prototype.sort` leaves the relative order implementation-defined;
it is modelled as 0 (and never happens for generated keys). -/
def cmpKeysChrono (groupType : Str) (a b : Str) : Int :=
  match parseGroupKeyToDate a groupType, parseGroupKeyToDate b groupType with
  | some da, some db => da - db
  | _, _ => 0

/-- `sortGroupKeys` (lines 1175-1203): date-based group keys sort
chronologically unless `sortBy` is `'alpha'`; all other cases sort by
`localeCompare`; `desc` reverses the result. -/
def sortGroupKeys (keys : List Str) (groupType : Str)
    (sortBy : Str) (sortOrder : Str) : List Str :=
  let isDateBasedGroup :=
    groupType == w "date" || groupType == w "week" || groupType == w "month"
  let sortedKeys :=
    if isDateBasedGroup && sortBy != w "alpha" then
      keys.mergeSort (fun a b => decide (cmpKeysChrono groupType a b ≤ 0))
    else
      keys.mergeSort (fun a b => decide (lcmp a b ≤ 0))
  if sortOrder == w "desc" then sortedKeys.reverse else sortedKeys

/-- First child of an insertion-ordered children list with the given key
(`data.get(key)`). -/
def lookupKey (key : Str) : List (Str × GroupNode) → Option GroupNode
  | [] => none
  | (k, g) :: t => if k = key then some g else lookupKey key t

/-- `'  '.repeat(depth)`. -/
def indentStr (depth : Nat) : Str := (List.replicate depth (w "  ")).flatten

/-- The `count === 1 ? '1 event' : count + ' events'` label. -/
def countLabel (count : Nat) : Str :=
  if count == 1 then w "1 event" else natToStr count ++ w " events"

/-- `renderNestedGroups` (lines 1123-1165), structural on a fuel argument
that always covers the tree depth: leaf lists render sorted bullet lines,
inner nodes render a `key (N events)` header per sorted key with the
recursively rendered child below it. -/
def renderNestedGroupsF : Nat → GroupNode → List Str → Nat → Bool → Bool →
    Str → Str → List SortLevel → Str
  | 0, _, _, _, _, _, _, _, _ => []
  | _ + 1, .leaf data, groupLevels, depth, includeTime, includeLocation, _, _, eventSortLevels =>
    let indent := indentStr depth
    let sortedEvents := sortEventsMultiLevel data eventSortLevels
    (sortedEvents.map (fun e =>
      let client := extractClientName e.title
      let serviceType := formatServiceType e
      let date := formatDate e.start
      let time := if includeTime then w " @ " ++ formatTime e.start else []
      let location :=
        if includeLocation && !e.location.isEmpty then
          w "\n" ++ indent ++ w "    📍 " ++ e.location
        else []
      let showDate := !(groupLevels.contains (w "date")) &&
        !(groupLevels.contains (w "week")) && !(groupLevels.contains (w "month"))
      let datePre := if showDate then date ++ w " | " else []
      indent ++ w "  • " ++ datePre ++ client ++ w " | " ++ serviceType ++
        time ++ location ++ w "\n")).flatten
  | fuel + 1, .node kids, groupLevels, depth, includeTime, includeLocation,
      groupSortBy, groupSortOrder, eventSortLevels =>
    let currentGroupType := groupLevels.getD depth []
    let sortedKeys := sortGroupKeys (kids.map (·.1)) currentGroupType
      groupSortBy groupSortOrder
    (sortedKeys.map (fun key =>
      match lookupKey key kids with
      | some value =>
        let count := countEvents value
        indentStr depth ++ key ++ w " (" ++ countLabel count ++ w ")\n" ++
          renderNestedGroupsF fuel value groupLevels (depth + 1) includeTime
            includeLocation groupSortBy groupSortOrder eventSortLevels ++ w "\n"
      | none => [])).flatten

mutual

/-- Tree depth, used as fuel for the renderer. -/
def nodeDepth : GroupNode → Nat
  | .leaf _ => 1
  | .node kids => 1 + kidsDepth kids

/-- Maximum child depth. -/
def kidsDepth : List (Str × GroupNode) → Nat
  | [] => 0
  | (_, g) :: t => max (nodeDepth g) (kidsDepth t)

end

/-- `renderNestedGroups` (lines 1123-1165). -/
def renderNestedGroups (data : GroupNode) (groupLevels : List Str) (depth : Nat)
    (includeTime includeLocation : Bool) (groupSortBy groupSortOrder : Str)
    (eventSortLevels : List SortLevel) : Str :=
  renderNestedGroupsF (nodeDepth data) data groupLevels depth includeTime
    includeLocation groupSortBy groupSortOrder eventSortLevels

/- ### Report renderer filter stages and CSV generation (lines 268-970). -/

/-- The date-range part of the shared filter (`eventDate < startDate` /
`eventDate > endDate` on `Date` values). -/
def dateRangePass (startDate endDate : Option Timestamp) (e : Event) : Bool :=
  (match startDate with
   | some sd => !(tsValue e.start < tsValue sd)
   | none => true) &&
  (match endDate with
   | some ed => !(tsValue e.start > tsValue ed)
   | none => true)

/-- The first filter stage of `generateTextList` (lines 281-299): the
work-events-only flag and the inclusive date range. -/
def textListBaseFilter (events : List Event) (workEventsOnly : Bool)
    (startDate endDate : Option Timestamp) : List Event :=
  events.filter (fun e =>
    (!workEventsOnly || isWorkEventEv e) && dateRangePass startDate endDate e)

/-- The second filter stage of `generateTextList` (lines 301-305): each
event is checked with `shouldIncludeEventOnDate` against its own start
date. -/
def textListOvernightFilter (events : List Event) : List Event :=
  events.filter (fun e => shouldIncludeEventOnDate e (some e.start))

/-- `escapeCSV`'s quote doubling (`value.replace(/"/g, '""')`). -/
def doubleQuotes : Str → Str
  | [] => []
  | c :: rest =>
    if c == '"' then '"' :: '"' :: doubleQuotes rest else c :: doubleQuotes rest

/-- `escapeCSV` (lines 961-970): a field containing a comma, double quote
or newline is wrapped in double quotes with embedded quotes doubled; any
other field (and the empty field) is returned unchanged. -/
def escapeCSV (value : Str) : Str :=
  if value.isEmpty then [] else
  if value.contains ',' || value.contains '"' || value.contains '\n' then
    '"' :: (doubleQuotes value ++ ['"'])
  else value

/-- The option bag of `generateCSV` (lines 884-892). -/
structure CSVOptions where
  startDate : Option Timestamp
  endDate : Option Timestamp
  workEventsOnly : Bool
  sortBy : Str
  secondarySort : Option Str
  sortOrder : Str
  includeLocation : Bool

/-- The duration cell of a CSV row (lines 936-943): minutes between start
and end (`Math.round` is exact at the model's minute precision), split as
`Xh Ym` / `Ym` with `Math.floor` hours and JavaScript `%` minutes. -/
def csvDuration (e : Event) : Str :=
  let durationMinutes := tsValue e.endTime - tsValue e.start
  let durationHours := durationMinutes.fdiv 60
  let remainingMinutes := durationMinutes.tmod 60
  if durationHours > 0 then
    intToStr durationHours ++ w "h " ++ intToStr remainingMinutes ++ w "m"
  else intToStr remainingMinutes ++ w "m"

/-- One data row of `generateCSV` (lines 930-950). -/
def csvRow (includeLocation : Bool) (e : Event) : Str :=
  let date := formatDate e.start
  let time := formatTime e.start
  let client := escapeCSV (extractClientName e.title)
  let serviceType := escapeCSV (formatServiceType e)
  let duration := csvDuration e
  if includeLocation then
    date ++ w "," ++ time ++ w "," ++ client ++ w "," ++ serviceType ++ w "," ++
      duration ++ w "," ++ escapeCSV e.location ++ w "\n"
  else
    date ++ w "," ++ time ++ w "," ++ client ++ w "," ++ serviceType ++ w "," ++
      duration ++ w "\n"

/-- The row-selection step inside `generateCSV`'s `forEach` (lines 922-928):
rows are emitted only for events passing `shouldIncludeEventOnDate` against
their own start date. -/
def csvIncludedRows (events : List Event) : List Event :=
  events.filter (fun e => shouldIncludeEventOnDate e (some e.start))

/-- `generateCSV` (lines 883-954): filter, legacy sort, fixed header, one
row per included event. -/
def generateCSV (events : List Event) (opts : CSVOptions) : Str :=
  let filteredEvents := events.filter (fun e =>
    (!opts.workEventsOnly || isWorkEventEv e) &&
      dateRangePass opts.startDate opts.endDate e)
  let filteredEvents := sortEvents filteredEvents opts.sortBy opts.secondarySort opts.sortOrder
  let header :=
    if opts.includeLocation then w "Date,Time,Client/Pet,Service Type,Duration,Location\n"
    else w "Date,Time,Client/Pet,Service Type,Duration\n"
  header ++ ((csvIncludedRows filteredEvents).map (csvRow opts.includeLocation)).flatten

/- ### Reference definitions written from the specification text, for the
refinement-style claims. -/

/-- `isWorkEvent` on the nullable argument (`null`/`undefined` titles are
falsy and classify as non-work). -/
def isWorkEventOpt : Option Str → Bool
  | none => false
  | some t => isWorkEvent t

/-- `extractClientName` on the nullable argument (`if (!title) return ''`). -/
def extractClientNameOpt : Option Str → Str
  | none => []
  | some t => extractClientName t

/-- Claim C8's reading of `extractClientName`: remove parentheticals, take
the substring before the first dash/en-dash/em-dash (the whole cleaned
string when no dash is present), strip a trailing duration token and then a
trailing MG/M&G/HS/Housesit marker, return the trimmed result. -/
def extractClientNameSpec (title : Str) : Str :=
  if title.isEmpty then [] else
  let cleaned := trimStr (removeParens title)
  let beforeDash := cleaned.takeWhile (fun c => !(isDashChar c))
  let name := trimStr beforeDash
  let name := trimStr (stripTrailingTokens [w "15", w "20", w "30", w "45", w "60"] name)
  let name := trimStr (stripTrailingTokens [w "mg", w "m&g", w "hs", w "housesit"] name)
  name

/-- Undouble the quotes inside the content of a quoted RFC4180 field. -/
def unquoteCSV : Str → Str
  | [] => []
  | [c] => [c]
  | c :: d :: rest =>
    if c == '"' && d == '"' then '"' :: unquoteCSV rest
    else c :: unquoteCSV (d :: rest)

/-- A standard RFC4180 parse of a single CSV field: a field wrapped in
double quotes has its wrapper removed and its doubled quotes undoubled;
any other field is taken verbatim. -/
def parseCSVField (s : Str) : Str :=
  match s with
  | [] => []
  | c :: rest =>
    if c == '"' && rest.getLast? == some '"' then unquoteCSV rest.dropLast
    else c :: rest

/-- The children list of an inner group node (a leaf has none). -/
def nodeChildren : GroupNode → List (Str × GroupNode)
  | .leaf _ => []
  | .node kids => kids

/-- Whether `escapeCSV` must quote the value. -/
def needsCSVQuoting (value : Str) : Bool :=
  value.contains ',' || value.contains '"' || value.contains '\n'

/-- The sort-specification levels evaluated lexicographically on their own,
without the final chronological tie-breaker — the "specification's
lexicographic level order" of claim C4. -/
def levelsCmp (levels : List SortLevel) (a b : Event) : Int :=
  match levels with
  | [] => 0
  | level :: rest =>
    let comparison := compareEvents a b level.sortBy
    let comparison := if level.sortOrder == w "desc" then -comparison else comparison
    if comparison != 0 then comparison else levelsCmp rest a b
/-- One level of the comparator after the `desc` adjustment: the value the
`sortEventsMultiLevel` comparator inspects for that level. -/
def levelAdj (level : SortLevel) (a b : Event) : Int :=
  if level.sortOrder == w "desc" then -(compareEvents a b level.sortBy)
  else compareEvents a b level.sortBy


theorem afterClose_length : ∀ {s r : Str}, afterClose s = some r → r.length < s.length := by
  intro s
  induction s with
  | nil => intro r h; simp [afterClose] at h
  | cons c rest ih =>
    intro r h
    simp only [afterClose] at h
    by_cases hc : c == ')'
    · simp [hc] at h; subst h; simp
    · simp [hc] at h
      exact Nat.lt_trans (ih h) (Nat.lt_succ_self _)


/-- The fuel argument is irrelevant as long as it covers the string length. -/
theorem removeParensF_congr : ∀ (f₁ f₂ : Nat) (s : Str),
    s.length ≤ f₁ → s.length ≤ f₂ → removeParensF f₁ s = removeParensF f₂ s := by
  intro f₁
  induction f₁ with
  | zero =>
    intro f₂ s h₁ _
    have : s = [] := List.length_eq_zero.mp (Nat.le_zero.mp h₁)
    subst this
    cases f₂ <;> rfl
  | succ f ih =>
    intro f₂ s h₁ h₂
    cases s with
    | nil => cases f₂ <;> rfl
    | cons c rest =>
      cases f₂ with
      | zero => exact absurd h₂ (by simp)
      | succ f' =>
        simp only [removeParensF]
        have hrest : rest.length ≤ f := Nat.le_of_succ_le_succ h₁
        have hrest' : rest.length ≤ f' := Nat.le_of_succ_le_succ h₂
        by_cases hc : c == '('
        · simp only [hc, if_true]
          cases har : afterClose rest with
          | some r =>
            have hr := afterClose_length har
            exact ih f' r (Nat.le_trans (Nat.le_of_lt hr) hrest)
              (Nat.le_trans (Nat.le_of_lt hr) hrest')
          | none => rw [ih f' rest hrest hrest']
        · simp only [hc, Bool.false_eq_true, if_false]
          rw [ih f' rest hrest hrest']


/-- Defining equation: the empty string is unchanged. -/
theorem removeParens_nil : removeParens [] = [] := rfl

/-- Defining equation: one scanning step of `removeParens`. -/
theorem removeParens_cons (c : Char) (rest : Str) :
    removeParens (c :: rest) =
      (if c == '(' then
        match afterClose rest with
        | some r => removeParens r
        | none => c :: removeParens rest
      else c :: removeParens rest) := by
  show removeParensF (rest.length + 1) (c :: rest) = _
  simp only [removeParensF, removeParens]
  by_cases hc : c == '('
  · simp only [hc, if_true]
    cases har : afterClose rest with
    | some r =>
      exact removeParensF_congr _ _ r
        (Nat.le_of_lt (afterClose_length har)) (Nat.le_refl _)
    | none => rfl
  · simp only [hc, Bool.false_eq_true, if_false]


-- Regression checks against the repository's own test expectations.
example : isWorkEvent (w "Bella 30") = true := by decide
example : isWorkEvent (w "Max & Cooper 60") = true := by decide
example : isWorkEvent (w "Kona Chai Zero 45") = true := by decide
example : isWorkEvent (w "Buddy HS") = true := by decide
example : isWorkEvent (w "Charlie Housesit") = true := by decide
example : isWorkEvent (w "Daisy MG") = true := by decide
example : isWorkEvent (w "Rocky M&G") = true := by decide
example : isWorkEvent (w "Spot Meet & Greet") = true := by decide
example : isWorkEvent (w "Bella nail trim") = true := by decide
example : isWorkEvent (w "Lunch") = false := by decide
example : isWorkEvent (w "Doctor appointment") = false := by decide
example : isWorkEvent (w "Grocery shopping") = false := by decide
example : isWorkEvent (w "✨ off ✨") = false := by decide
example : isWorkEvent (w "(No title)") = false := by decide
example : isWorkEvent (w "") = false := by decide
example : isWorkEvent (w "30 minute massage") = false := by decide
example : isWorkEvent (w "Watchtower Tattoo") = false := by decide
example : isWorkEvent (w "Cookie gaba") = false := by decide
example : isWorkEvent (w "Pixel 30 (forgot to cancel)") = true := by decide
example : isWorkEvent (w "Roary 30 (last until 10/26 AM)") = true := by decide
example : isWorkEvent (w "Minnie+ 30") = true := by decide
example : isWorkEvent (w "Archie Tarzan 60") = true := by decide
example : isWorkEvent (w "Roary 30 - 1st") = true := by decide
example : isWorkEvent (w "Larry Reuben 30 & HS Start") = true := by decide
example : isWorkEvent (w "Kona Chai Zero M&G") = true := by decide
example : isWorkEvent (w "Meeting with Mark @ Fusion") = false := by decide
example : isWorkEvent (w "Momentum \"Get Operational\" @ Velocity") = false := by decide
example : isWorkEvent (w "Yoga Therapy") = false := by decide
example : isWorkEvent (w "House Clean") = false := by decide
example : isWorkEvent (w "Appointment with Eric") = false := by decide
example : isWorkEvent (w "✨ Off ✨") = false := by decide

/- ### Lemmas about the string helpers. -/

theorem dropWhile_self (p : Char → Bool) (l : Str) :
    (l.dropWhile p).dropWhile p = l.dropWhile p := by
  induction l with
  | nil => rfl
  | cons c rest ih =>
    by_cases h : p c = true
    · rw [List.dropWhile_cons, if_pos h, ih]
    · rw [List.dropWhile_cons, if_neg h, List.dropWhile_cons, if_neg h]

theorem dropWhile_head_false (p : Char → Bool) :
    ∀ (l : Str) {c : Char} {cs : Str}, l.dropWhile p = c :: cs → p c = false := by
  intro l
  induction l with
  | nil => intro c cs h; exact absurd h (by simp)
  | cons d rest ih =>
    intro c cs h
    by_cases hd : p d = true
    · rw [List.dropWhile_cons, if_pos hd] at h
      exact ih h
    · rw [List.dropWhile_cons, if_neg hd] at h
      obtain ⟨rfl, -⟩ := List.cons.injEq .. |>.mp h
      simpa using hd

theorem dropWhile_append_last (p : Char → Bool) {c : Char} (hc : p c = false) (l : Str) :
    (l ++ [c]).dropWhile p = l.dropWhile p ++ [c] := by
  induction l with
  | nil => simp [List.dropWhile_cons, hc]
  | cons d rest ih =>
    by_cases hd : p d = true
    · simp only [List.cons_append, List.dropWhile_cons, if_pos hd, ih]
    · simp only [List.cons_append, List.dropWhile_cons, if_neg hd]

theorem trimRight_cons_nonspace {c : Char} (hc : isSpaceChar c = false) (cs : Str) :
    trimRight (c :: cs) = c :: trimRight cs := by
  unfold trimRight
  rw [List.reverse_cons, dropWhile_append_last _ hc, List.reverse_append]
  rfl

theorem trimRight_idem (s : Str) : trimRight (trimRight s) = trimRight s := by
  unfold trimRight
  rw [List.reverse_reverse, dropWhile_self]

theorem trimLeft_trimRight_trimLeft (s : Str) :
    trimLeft (trimRight (trimLeft s)) = trimRight (trimLeft s) := by
  cases h : trimLeft s with
  | nil => rfl
  | cons c cs =>
    have hc : isSpaceChar c = false := dropWhile_head_false _ s h
    rw [trimRight_cons_nonspace hc]
    unfold trimLeft
    rw [List.dropWhile_cons, if_neg (by simp [hc])]

theorem trimStr_idem (s : Str) : trimStr (trimStr s) = trimStr s := by
  unfold trimStr
  rw [trimLeft_trimRight_trimLeft, trimRight_idem]

theorem cleanTitle_eq (s : Str) : cleanTitle s = trimStr (removeParens s) := by
  cases s with
  | nil => rfl
  | cons c cs => rfl

/- ### Claim C1. -/

theorem isDefinitelyPersonal_trimStr (t : Str) :
    isDefinitelyPersonal (trimStr t) = isDefinitelyPersonal t := by
  cases t with
  | nil => rfl
  | cons c cs =>
    unfold isDefinitelyPersonal
    simp only [List.isEmpty_cons, Bool.false_eq_true, if_false]
    cases h : trimStr (c :: cs) with
    | nil => decide
    | cons d ds =>
      have hdd : trimStr (d :: ds) = d :: ds := by rw [← h, trimStr_idem, h]
      simp only [List.isEmpty_cons, Bool.false_eq_true, if_false, hdd]

theorem personal_veto (t : Str) (h : isDefinitelyPersonal t = true) :
    isWorkEvent t = false := by
  unfold isWorkEvent
  cases t with
  | nil => rfl
  | cons c cs =>
    simp only [List.isEmpty_cons, Bool.false_eq_true, if_false]
    rw [isDefinitelyPersonal_trimStr (c :: cs), h]
    simp

/-- Claim C1: any title (or event object exposing a `.title`) matching at
least one personal pattern is classified as non-work by
`EventProcessor.isWorkEvent`, regardless of any work-pattern match — the
personal rule set is an absolute veto evaluated first; in particular
`isWorkEvent "30 minute massage" = false`. -/
theorem C1_personal_precedence :
    (∀ t : Str, isDefinitelyPersonal t = true → isWorkEvent t = false) ∧
    (∀ e : Event, isDefinitelyPersonal e.title = true → isWorkEventEv e = false) ∧
    isWorkEvent (w "30 minute massage") = false :=
  ⟨personal_veto, fun e h => personal_veto e.title h, by decide⟩

/-- Witness for C1 at the concrete personal-and-work title
`"30 minute massage"` (matches the medical/personal pattern and, through
its duration token, a work pattern). -/
theorem C1_personal_precedence_witness :
    isDefinitelyPersonal (w "30 minute massage") = true ∧
      isWorkEvent (w "30 minute massage") = false :=
  ⟨by decide, C1_personal_precedence.1 (w "30 minute massage") (by decide)⟩

/- ### Claims C3 and C10: overnight handling in the export pipelines. -/

theorem shouldInclude_marker (e : Event) (cd : Option Timestamp)
    (h : isEndOvernightMarker e = true) : shouldIncludeEventOnDate e cd = false := by
  unfold shouldIncludeEventOnDate
  rw [h]
  simp

theorem shouldInclude_overnight (e : Event) (d : Timestamp)
    (hm : isEndOvernightMarker e = false) (ho : isOvernightEvent e = true) :
    (shouldIncludeEventOnDate e (some d) = true ↔ e.start.date = d.date) := by
  unfold shouldIncludeEventOnDate
  rw [hm, ho]
  simp

theorem insertBucket_keys_ok (f : Event → Str) (e : Event) :
    ∀ (acc : List (Str × List Event)), (∀ p ∈ acc, ∀ x ∈ p.2, f x = p.1) →
      ∀ p ∈ insertBucket (f e) e acc, ∀ x ∈ p.2, f x = p.1 := by
  intro acc
  induction acc with
  | nil =>
    intro _ p hp x hx
    simp only [insertBucket, List.mem_singleton] at hp
    subst hp
    simp only [List.mem_singleton] at hx
    subst hx
    rfl
  | cons q t ih =>
    obtain ⟨k, es⟩ := q
    intro hacc p hp x hx
    simp only [insertBucket] at hp
    by_cases hk : k = f e
    · rw [if_pos hk] at hp
      rcases List.mem_cons.mp hp with h1 | h2
      · subst h1
        rcases List.mem_append.mp hx with hx1 | hx2
        · exact hacc (k, es) (List.mem_cons_self _ _) x hx1
        · simp only [List.mem_singleton] at hx2
          subst hx2
          exact hk.symm
      · exact hacc p (List.mem_cons_of_mem _ h2) x hx
    · rw [if_neg hk] at hp
      rcases List.mem_cons.mp hp with h1 | h2
      · subst h1
        exact hacc (k, es) (List.mem_cons_self _ _) x hx
      · exact ih (fun p hp => hacc p (List.mem_cons_of_mem _ hp)) p h2 x hx

theorem bucketBy_keys_ok (f : Event → Str) (events : List Event) :
    ∀ p ∈ bucketBy f events, ∀ x ∈ p.2, f x = p.1 := by
  unfold bucketBy
  suffices h : ∀ (acc : List (Str × List Event)), (∀ p ∈ acc, ∀ x ∈ p.2, f x = p.1) →
      ∀ p ∈ events.foldl (fun acc e => insertBucket (f e) e acc) acc, ∀ x ∈ p.2, f x = p.1 by
    exact h [] (by simp)
  induction events with
  | nil => intro acc hacc; simpa using hacc
  | cons e t ih =>
    intro acc hacc
    rw [List.foldl_cons]
    exact ih _ (insertBucket_keys_ok f e acc hacc)

/-- Claim C3: end-of-overnight marker titles are excluded from exports for
every `checkDate`; a non-marker overnight event with a concrete `checkDate`
is included exactly when the check date is the event's start calendar day
(midnight-normalized); and in a date-grouped tree every event sits only
under its own start date's key, so a multi-day overnight event appears only
under its first date. -/
theorem C3_overnight_single_appearance :
    (∀ (e : Event) (cd : Option Timestamp),
      isEndOvernightMarker e = true → shouldIncludeEventOnDate e cd = false) ∧
    (∀ (e : Event) (d : Timestamp),
      isEndOvernightMarker e = false → isOvernightEvent e = true →
        (shouldIncludeEventOnDate e (some d) = true ↔ e.start.date = d.date)) ∧
    (∀ (events : List Event) (k : Str) (sub : GroupNode) (e : Event),
      (k, sub) ∈ nodeChildren (buildNestedGroups events [w "date"]) →
      e ∈ flattenEvents sub → k = formatDate e.start) := by
  refine ⟨shouldInclude_marker, shouldInclude_overnight, ?_⟩
  intro events k sub e hmem hflat
  have hch : nodeChildren (buildNestedGroups events [w "date"]) =
      (bucketBy (fun e => getGroupKey e (w "date")) events).map
        (fun kv => (kv.1, GroupNode.leaf kv.2)) := rfl
  rw [hch] at hmem
  obtain ⟨⟨k', es⟩, hin, heq⟩ := List.mem_map.mp hmem
  obtain ⟨h1, h2⟩ := Prod.mk.injEq .. |>.mp heq
  subst h1
  subst h2
  have hkey : getGroupKey e (w "date") = k' :=
    bucketBy_keys_ok _ events (k', es) hin e (by simpa using hflat)
  rw [← hkey]
  rfl

/-- Witness for C3: a concrete end-marker event is excluded, and a concrete
overnight housesit starting 11/15/2025 is included on 11/15 and not on
11/16. -/
theorem C3_overnight_single_appearance_witness :
    shouldIncludeEventOnDate
        ⟨w "End HS Bella", ⟨⟨2025, 10, 15⟩, 9, 0⟩, ⟨⟨2025, 10, 15⟩, 10, 0⟩, [], none⟩
        none = false ∧
    (shouldIncludeEventOnDate
        ⟨w "Bella HS", ⟨⟨2025, 10, 15⟩, 18, 0⟩, ⟨⟨2025, 10, 17⟩, 9, 0⟩, [], none⟩
        (some ⟨⟨2025, 10, 15⟩, 0, 0⟩) = true ↔
      (⟨2025, 10, 15⟩ : CivilDate) = ⟨2025, 10, 15⟩) ∧
    (shouldIncludeEventOnDate
        ⟨w "Bella HS", ⟨⟨2025, 10, 15⟩, 18, 0⟩, ⟨⟨2025, 10, 17⟩, 9, 0⟩, [], none⟩
        (some ⟨⟨2025, 10, 16⟩, 0, 0⟩) = true ↔
      (⟨2025, 10, 15⟩ : CivilDate) = ⟨2025, 10, 16⟩) :=
  ⟨C3_overnight_single_appearance.1 _ none (by decide),
   C3_overnight_single_appearance.2.1 _ _ (by decide) (by decide),
   C3_overnight_single_appearance.2.1 _ _ (by decide) (by decide)⟩

theorem shouldInclude_own_start (e : Event) :
    shouldIncludeEventOnDate e (some e.start) = !(isEndOvernightMarker e) := by
  unfold shouldIncludeEventOnDate
  cases hm : isEndOvernightMarker e
  · simp only [Bool.false_eq_true, if_false, Bool.not_false]
    cases ho : isOvernightEvent e <;> simp
  · simp

/-- Claim C10: both report pipelines call `shouldIncludeEventOnDate` with
each event's own start date, where the overnight start-date comparison
always succeeds; hence the overnight-continuation filtering step of
`generateTextList` and of `generateCSV` removes exactly the events whose
titles match the end-of-overnight marker pattern, and keeps every other
event, overnight or not. -/
theorem C10_continuation_filter_is_marker_filter :
    (∀ e : Event, shouldIncludeEventOnDate e (some e.start) = !(isEndOvernightMarker e)) ∧
    (∀ (events : List Event) (workEventsOnly : Bool) (sd ed : Option Timestamp),
      textListOvernightFilter (textListBaseFilter events workEventsOnly sd ed) =
        (textListBaseFilter events workEventsOnly sd ed).filter
          (fun e => !(isEndOvernightMarker e))) ∧
    (∀ events : List Event,
      csvIncludedRows events = events.filter (fun e => !(isEndOvernightMarker e))) := by
  refine ⟨shouldInclude_own_start, ?_, ?_⟩
  · intro events workEventsOnly sd ed
    unfold textListOvernightFilter
    exact List.filter_congr (fun e _ => shouldInclude_own_start e)
  · intro events
    unfold csvIncludedRows
    exact List.filter_congr (fun e _ => shouldInclude_own_start e)

/- ### Claim C2: grouping count conservation. -/

theorem insertBucket_sizes (key : Str) (e : Event) :
    ∀ acc : List (Str × List Event),
      ((insertBucket key e acc).map (fun p => p.2.length)).sum =
        ((acc.map (fun p => p.2.length)).sum) + 1 := by
  intro acc
  induction acc with
  | nil => simp [insertBucket]
  | cons q t ih =>
    obtain ⟨k, es⟩ := q
    simp only [insertBucket]
    by_cases hk : k = key
    · rw [if_pos hk]
      simp only [List.map_cons, List.sum_cons, List.length_append, List.length_singleton]
      omega
    · rw [if_neg hk]
      simp only [List.map_cons, List.sum_cons, ih]
      omega

theorem bucketBy_sizes (f : Event → Str) (events : List Event) :
    ((bucketBy f events).map (fun p => p.2.length)).sum = events.length := by
  unfold bucketBy
  suffices h : ∀ acc : List (Str × List Event),
      ((events.foldl (fun acc e => insertBucket (f e) e acc) acc).map
        (fun p => p.2.length)).sum =
        ((acc.map (fun p => p.2.length)).sum) + events.length by
    simpa using h []
  induction events with
  | nil => intro acc; simp
  | cons e t ih =>
    intro acc
    rw [List.foldl_cons, ih, insertBucket_sizes]
    simp only [List.length_cons]
    omega

theorem countEvents_build (events : List Event) (levels : List Str) :
    countEvents (buildNestedGroups events levels) = events.length := by
  induction levels generalizing events with
  | nil => rfl
  | cons l rest ih =>
    show countEvents (.node ((bucketBy (fun e => getGroupKey e l) events).map
      (fun kv => (kv.1, buildNestedGroups kv.2 rest)))) = events.length
    have key : ∀ bs : List (Str × List Event),
        countKids (bs.map (fun kv => (kv.1, buildNestedGroups kv.2 rest))) =
          (bs.map (fun p => p.2.length)).sum := by
      intro bs
      induction bs with
      | nil => rfl
      | cons q t iht =>
        obtain ⟨k, es⟩ := q
        simp only [List.map_cons, countKids, iht, ih es, List.sum_cons]
    rw [show countEvents (.node ((bucketBy (fun e => getGroupKey e l) events).map
      (fun kv => (kv.1, buildNestedGroups kv.2 rest)))) =
        countKids ((bucketBy (fun e => getGroupKey e l) events).map
          (fun kv => (kv.1, buildNestedGroups kv.2 rest))) from rfl,
      key, bucketBy_sizes]

mutual

theorem countEvents_eq_flatten : ∀ g : GroupNode,
    countEvents g = (flattenEvents g).length
  | .leaf es => rfl
  | .node kids => by
    rw [show countEvents (.node kids) = countKids kids from rfl,
      show flattenEvents (.node kids) = flattenKids kids from rfl]
    exact countKids_eq_flatten kids

theorem countKids_eq_flatten : ∀ ks : List (Str × GroupNode),
    countKids ks = (flattenKids ks).length
  | [] => rfl
  | (k, g) :: t => by
    rw [show countKids ((k, g) :: t) = countEvents g + countKids t from rfl,
      show flattenKids ((k, g) :: t) = flattenEvents g ++ flattenKids t from rfl,
      List.length_append, countEvents_eq_flatten g, countKids_eq_flatten t]

end

/-- Claim C2: `buildNestedGroups` neither drops nor duplicates events —
`countEvents` of the built tree equals the input length for every grouping
configuration — and `countEvents` (the number printed in each group header
by `renderNestedGroups`) is the total recursive leaf count under the node,
not a shallow child count. -/
theorem C2_group_count_conservation :
    (∀ (events : List Event) (levels : List Str),
      countEvents (buildNestedGroups events levels) = events.length) ∧
    (∀ g : GroupNode, countEvents g = (flattenEvents g).length) :=
  ⟨countEvents_build, countEvents_eq_flatten⟩

/- ### Claim C6: unrecognized sort/group configuration. -/

theorem getGroupKey_unknown (e : Event) (k : Str)
    (h1 : k ≠ w "client") (h2 : k ≠ w "service") (h3 : k ≠ w "date")
    (h4 : k ≠ w "week") (h5 : k ≠ w "month") :
    getGroupKey e k = w "Unknown" := by
  simp only [getGroupKey, beq_iff_eq, h1, h2, h3, h4, h5, if_false]

theorem compareEvents_unknown (a b : Event) (f : Str)
    (h1 : f ≠ w "client") (h2 : f ≠ w "service") (h3 : f ≠ w "time") :
    compareEvents a b f = tsValue a.start - tsValue b.start := by
  simp only [compareEvents, beq_iff_eq, h1, h2, h3, if_false]

/-- Counterexample to C6 as stated: an unrecognized sort field does NOT
produce a zero comparison — the `switch` of `compareEvents` shares its
`default:` arm with `case 'date':`, so the field `"priority"` compares two
events with different start times nonzero (chronologically). -/
theorem C6_counterexample :
    compareEvents
      ⟨w "Bella 30", ⟨⟨2025, 10, 15⟩, 10, 0⟩, ⟨⟨2025, 10, 15⟩, 10, 30⟩, [], none⟩
      ⟨w "Milo 45", ⟨⟨2025, 10, 16⟩, 11, 0⟩, ⟨⟨2025, 10, 16⟩, 11, 45⟩, [], none⟩
      (w "priority") ≠ 0 := by decide

/-- Claim C6 (amended): invalid configuration is accepted rather than
rejected — an unrecognized grouping key yields the literal `"Unknown"`
bucket label, and an unrecognized sort field falls back to the
chronological (start-timestamp) comparison — the shared
`case 'date': default:` arm — rather than a zero no-op, so a total order
still results. -/
theorem C6_invalid_config :
    (∀ (e : Event) (k : Str),
      k ≠ w "client" → k ≠ w "service" → k ≠ w "date" → k ≠ w "week" →
        k ≠ w "month" → getGroupKey e k = w "Unknown") ∧
    (∀ (a b : Event) (f : Str),
      f ≠ w "client" → f ≠ w "service" → f ≠ w "time" →
        compareEvents a b f = tsValue a.start - tsValue b.start) :=
  ⟨getGroupKey_unknown, compareEvents_unknown⟩

/-- Witness for C6 at the unrecognized field/key `"priority"`. -/
theorem C6_invalid_config_witness :
    getGroupKey
        ⟨w "Bella 30", ⟨⟨2025, 10, 15⟩, 10, 0⟩, ⟨⟨2025, 10, 15⟩, 10, 30⟩, [], none⟩
        (w "priority") = w "Unknown" ∧
    compareEvents
        ⟨w "Bella 30", ⟨⟨2025, 10, 15⟩, 10, 0⟩, ⟨⟨2025, 10, 15⟩, 10, 30⟩, [], none⟩
        ⟨w "Milo 45", ⟨⟨2025, 10, 16⟩, 11, 0⟩, ⟨⟨2025, 10, 16⟩, 11, 45⟩, [], none⟩
        (w "priority") =
      tsValue ⟨⟨2025, 10, 15⟩, 10, 0⟩ - tsValue ⟨⟨2025, 10, 16⟩, 11, 0⟩ :=
  ⟨C6_invalid_config.1 _ (w "priority") (by decide) (by decide) (by decide)
      (by decide) (by decide),
   C6_invalid_config.2 _ _ (w "priority") (by decide) (by decide) (by decide)⟩

/- ### Claim C7: the service-type cascade. -/

theorem ceilDivInt_mul_msPerDay (d : Int) :
    ceilDivInt (d * msPerDay) msPerDay = d := by
  unfold ceilDivInt msPerDay
  show (d * 86400000 + 86400000 - 1) / 86400000 = d
  have h : d * 86400000 + 86400000 - 1 = (86400000 - 1) + 86400000 * d := by ring
  rw [h, Int.add_mul_ediv_left _ _ (by norm_num)]
  norm_num

theorem calculateOvernightNights_eq (e : Event) (h : isOvernightEvent e = true) :
    calculateOvernightNights e =
      max 1 (civilDays e.endTime.date - civilDays e.start.date) := by
  unfold calculateOvernightNights
  rw [h]
  simp only [Bool.not_true, Bool.false_eq_true, if_false]
  rw [ceilDivInt_mul_msPerDay]

/-- Claim C7: `formatServiceType` is a first-match-wins cascade: overnight
label with night count `max 1 (end day − start day)`, then the
`"nail trim"` substring, then the first duration token as `"{N}-min"`, then
the meet-and-greet pattern, then the `type`-based fallback
(`"Dog Walk"` for `walk`, `"Visit"` otherwise). -/
theorem C7_service_type_cascade :
    ∀ e : Event,
    (isOvernightEvent e = true →
      formatServiceType e =
        w "Overnight (" ++
          (if max 1 (civilDays e.endTime.date - civilDays e.start.date) == 1
           then w "1 night"
           else intToStr (max 1 (civilDays e.endTime.date - civilDays e.start.date)) ++
             w " nights") ++ w ")") ∧
    (isOvernightEvent e = false →
      containsSubstr (w "nail trim") (lowerStr e.title) = true →
      formatServiceType e = w "Nail Trim") ∧
    (∀ tok : Str, isOvernightEvent e = false →
      containsSubstr (w "nail trim") (lowerStr e.title) = false →
      firstTokenWB [w "15", w "20", w "30", w "45", w "60"] e.title false = some tok →
      formatServiceType e = tok ++ w "-min") ∧
    (isOvernightEvent e = false →
      containsSubstr (w "nail trim") (lowerStr e.title) = false →
      firstTokenWB [w "15", w "20", w "30", w "45", w "60"] e.title false = none →
      meetAndGreetTest e.title = true →
      formatServiceType e = w "Meet & Greet") ∧
    (isOvernightEvent e = false →
      containsSubstr (w "nail trim") (lowerStr e.title) = false →
      firstTokenWB [w "15", w "20", w "30", w "45", w "60"] e.title false = none →
      meetAndGreetTest e.title = false →
      formatServiceType e =
        (if e.type == some (w "walk") then w "Dog Walk" else w "Visit")) := by
  intro e
  refine ⟨?_, ?_, ?_, ?_, ?_⟩
  · intro ho
    simp only [formatServiceType, ho, if_true, calculateOvernightNights_eq e ho]
  · intro ho hn
    simp only [formatServiceType, ho, hn, Bool.false_eq_true, if_false, if_true]
  · intro tok ho hn htok
    simp only [formatServiceType, ho, hn, htok, Bool.false_eq_true, if_false]
  · intro ho hn htok hmg
    simp only [formatServiceType, ho, hn, htok, hmg, Bool.false_eq_true, if_false, if_true]
  · intro ho hn htok hmg
    simp only [formatServiceType, ho, hn, htok, hmg, Bool.false_eq_true, if_false]

/-- Witness for C7: the cascade evaluated on concrete events for each
branch — a two-night housesit, a nail trim, a 30-minute drop-in, a meet &
greet, and a plain walk. -/
theorem C7_service_type_cascade_witness :
    formatServiceType
        ⟨w "Bella HS", ⟨⟨2025, 10, 15⟩, 18, 0⟩, ⟨⟨2025, 10, 17⟩, 9, 0⟩, [], none⟩ =
      w "Overnight (" ++
        (if max 1 (civilDays ⟨2025, 10, 17⟩ - civilDays ⟨2025, 10, 15⟩) == 1
         then w "1 night"
         else intToStr (max 1 (civilDays ⟨2025, 10, 17⟩ - civilDays ⟨2025, 10, 15⟩)) ++
           w " nights") ++ w ")" ∧
    formatServiceType
        ⟨w "Bella nail trim", ⟨⟨2025, 10, 15⟩, 10, 0⟩, ⟨⟨2025, 10, 15⟩, 10, 30⟩, [], none⟩ =
      w "Nail Trim" ∧
    formatServiceType
        ⟨w "Bella 30", ⟨⟨2025, 10, 15⟩, 10, 0⟩, ⟨⟨2025, 10, 15⟩, 10, 30⟩, [], none⟩ =
      w "30" ++ w "-min" ∧
    formatServiceType
        ⟨w "Daisy MG", ⟨⟨2025, 10, 15⟩, 10, 0⟩, ⟨⟨2025, 10, 15⟩, 10, 30⟩, [], none⟩ =
      w "Meet & Greet" ∧
    formatServiceType
        ⟨w "Luna stroll", ⟨⟨2025, 10, 15⟩, 10, 0⟩, ⟨⟨2025, 10, 15⟩, 10, 30⟩, [],
          some (w "walk")⟩ =
      (if (some (w "walk") : Option Str) == some (w "walk") then w "Dog Walk"
       else w "Visit") :=
  ⟨(C7_service_type_cascade _).1 (by decide),
   (C7_service_type_cascade _).2.1 (by decide) (by decide),
   (C7_service_type_cascade _).2.2.1 (w "30") (by decide) (by decide) (by decide),
   (C7_service_type_cascade _).2.2.2.1 (by decide) (by decide) (by decide) (by decide),
   (C7_service_type_cascade _).2.2.2.2 (by decide) (by decide) (by decide) (by decide)⟩

/- ### Claim C8: client-name extraction. -/

/-- Counterexample to C8 as stated: on a cleaned title that begins with a
dash the `^([^-–—]+)` match fails and `extractClientName` returns the whole
cleaned title (dashes included) instead of the empty substring before the
first dash that the claim prescribes. -/
theorem C8_counterexample :
    extractClientName (w "-Bella 30") ≠ extractClientNameSpec (w "-Bella 30") := by
  decide

/-- Claim C8 (amended): `extractClientName` behaves exactly as the claim
describes — parentheticals removed, the substring before the first dash
taken, a trailing duration token and then a trailing marker stripped, the
result trimmed, the empty/null input yielding `""` and the function total —
except when the substring before the first dash is empty (cleaned title
empty or beginning with a dash), where the cleaned title is returned
unchanged. -/
theorem C8_extract_client_name :
    (∀ t : Str,
      ((trimStr (removeParens t)).takeWhile (fun c => !(isDashChar c))).isEmpty = false →
        extractClientName t = extractClientNameSpec t) ∧
    (∀ t : Str, t.isEmpty = false →
      ((trimStr (removeParens t)).takeWhile (fun c => !(isDashChar c))).isEmpty = true →
        extractClientName t = trimStr (removeParens t)) ∧
    extractClientName [] = [] ∧ extractClientNameOpt none = [] := by
  refine ⟨?_, ?_, rfl, rfl⟩
  · intro t h
    cases t with
    | nil => exact absurd h (by decide)
    | cons c cs =>
      simp only [extractClientName, extractClientNameSpec, List.isEmpty_cons,
        Bool.false_eq_true, if_false, h]
  · intro t h1 h2
    cases t with
    | nil => exact absurd h1 (by decide)
    | cons c cs =>
      simp only [extractClientName, List.isEmpty_cons, Bool.false_eq_true,
        if_false, h2, if_true]

/-- Witness for C8: on `"Bella 30 (note)"` (non-dash-initial) the code
agrees with the claim's description; on the dash-initial `"-Bella 30"` the
cleaned title comes back unchanged. -/
theorem C8_extract_client_name_witness :
    extractClientName (w "Bella 30 (note)") = extractClientNameSpec (w "Bella 30 (note)") ∧
    extractClientName (w "-Bella 30") = trimStr (removeParens (w "-Bella 30")) :=
  ⟨C8_extract_client_name.1 _ (by decide),
   C8_extract_client_name.2.1 _ (by decide) (by decide)⟩

/- ### Claim C9: CSV escaping. -/

theorem escapeCSV_quoted (v : Str) (h : needsCSVQuoting v = true) :
    escapeCSV v = '"' :: (doubleQuotes v ++ ['"']) := by
  cases v with
  | nil => exact absurd h (by decide)
  | cons c cs =>
    simp only [needsCSVQuoting] at h
    simp only [escapeCSV, List.isEmpty_cons, Bool.false_eq_true, if_false, h, if_true]

theorem escapeCSV_plain (v : Str) (h : needsCSVQuoting v = false) :
    escapeCSV v = v := by
  cases v with
  | nil => rfl
  | cons c cs =>
    simp only [needsCSVQuoting] at h
    simp only [escapeCSV, List.isEmpty_cons, Bool.false_eq_true, if_false, h]

theorem parseCSVField_plain (v : Str) (h : needsCSVQuoting v = false) :
    parseCSVField v = v := by
  cases v with
  | nil => rfl
  | cons c cs =>
    have hcq : c ≠ '"' := by
      intro hc
      subst hc
      simp [needsCSVQuoting, List.contains_cons] at h
    simp only [parseCSVField, beq_eq_false_iff_ne.mpr hcq, Bool.false_and,
      Bool.false_eq_true, if_false]

theorem doubleQuotes_eq_nil (v : Str) : doubleQuotes v = [] ↔ v = [] := by
  cases v with
  | nil => simp [doubleQuotes]
  | cons c cs =>
    simp only [doubleQuotes]
    by_cases hc : (c == '"') = true
    · rw [if_pos hc]; simp
    · rw [if_neg hc]; simp

theorem unquote_double (v : Str) : unquoteCSV (doubleQuotes v) = v := by
  induction v with
  | nil => rfl
  | cons c rest ih =>
    by_cases hc : (c == '"') = true
    · have hcq : c = '"' := by simpa using hc
      subst hcq
      simp only [doubleQuotes, if_pos hc]
      rw [show unquoteCSV ('"' :: '"' :: doubleQuotes rest) =
          (if ('"' == '"') && ('"' == '"') then '"' :: unquoteCSV (doubleQuotes rest)
           else '"' :: unquoteCSV ('"' :: doubleQuotes rest)) from rfl]
      simp [ih]
    · simp only [doubleQuotes, if_neg hc]
      cases hdq : doubleQuotes rest with
      | nil =>
        have hre : rest = [] := (doubleQuotes_eq_nil rest).mp hdq
        subst hre
        rfl
      | cons d t =>
        have hcf : (c == '"') = false := by
          revert hc
          cases c == '"' <;> simp
        rw [show unquoteCSV (c :: d :: t) =
            (if (c == '"') && (d == '"') then '"' :: unquoteCSV t
             else c :: unquoteCSV (d :: t)) from rfl]
        rw [hcf, Bool.false_and]
        simp only [Bool.false_eq_true, if_false]
        rw [← hdq, ih]

theorem parseCSVField_escapeCSV (v : Str) : parseCSVField (escapeCSV v) = v := by
  cases hq : needsCSVQuoting v
  · rw [escapeCSV_plain v hq, parseCSVField_plain v hq]
  · rw [escapeCSV_quoted v hq]
    simp only [parseCSVField, beq_self_eq_true, List.getLast?_concat, Bool.and_self,
      if_true, List.dropLast_concat, unquote_double]

/-- Claim C9: `generateCSV` emits every field through `escapeCSV`, which
wraps any value containing a comma, double quote or newline in double
quotes with embedded quotes doubled and leaves every other value
unchanged; a standard RFC4180 parse recovers the original value, and the
client name `"Smith, Jr."` appears quoted in the generated CSV. -/
theorem C9_csv_escaping :
    (∀ v : Str, needsCSVQuoting v = true →
      escapeCSV v = '"' :: (doubleQuotes v ++ ['"'])) ∧
    (∀ v : Str, needsCSVQuoting v = false → escapeCSV v = v) ∧
    (∀ v : Str, parseCSVField (escapeCSV v) = v) ∧
    escapeCSV (w "Smith, Jr.") = w "\"Smith, Jr.\"" ∧
    generateCSV
        [⟨w "Smith, Jr. - 30", ⟨⟨2025, 10, 15⟩, 10, 0⟩, ⟨⟨2025, 10, 15⟩, 10, 30⟩, [], none⟩]
        ⟨none, none, true, w "date", none, w "asc", false⟩ =
      w "Date,Time,Client/Pet,Service Type,Duration\n11/15/2025,10:00 AM,\"Smith, Jr.\",30-min,30m\n" :=
  ⟨escapeCSV_quoted, escapeCSV_plain, parseCSVField_escapeCSV, by decide, by
    simp only [generateCSV, sortEvents]
    rw [show List.filter _ [(⟨w "Smith, Jr. - 30", ⟨⟨2025, 10, 15⟩, 10, 0⟩,
        ⟨⟨2025, 10, 15⟩, 10, 30⟩, [], none⟩ : Event)] =
      [(⟨w "Smith, Jr. - 30", ⟨⟨2025, 10, 15⟩, 10, 0⟩,
        ⟨⟨2025, 10, 15⟩, 10, 30⟩, [], none⟩ : Event)] from by decide]
    rw [List.mergeSort_singleton]
    decide⟩

/-- Witness for C9 at the concrete comma-containing client name
`"Smith, Jr."`. -/
theorem C9_csv_escaping_witness :
    needsCSVQuoting (w "Smith, Jr.") = true ∧
    escapeCSV (w "Smith, Jr.") = '"' :: (doubleQuotes (w "Smith, Jr.") ++ ['"']) ∧
    parseCSVField (escapeCSV (w "Smith, Jr.")) = w "Smith, Jr." :=
  ⟨by decide, C9_csv_escaping.1 (w "Smith, Jr.") (by decide),
   C9_csv_escaping.2.2.1 (w "Smith, Jr.")⟩

/- ### Claim C5: parenthetical stripping. -/

theorem afterClose_none_iff (l : Str) :
    afterClose l = none ↔ ∀ c ∈ l, c ≠ ')' := by
  induction l with
  | nil => simp [afterClose]
  | cons c rest ih =>
    simp only [afterClose, List.mem_cons]
    by_cases hc : (c == ')') = true
    · have : c = ')' := by simpa using hc
      subst this
      simp
    · have hne : c ≠ ')' := by simpa using hc
      rw [if_neg hc]
      constructor
      · intro h d hd
        rcases hd with rfl | hd
        · exact hne
        · exact ih.mp h d hd
      · intro h
        exact ih.mpr (fun d hd => h d (Or.inr hd))

theorem afterClose_append (xs ys : Str) :
    afterClose (xs ++ ys) =
      (match afterClose xs with
       | some r => some (r ++ ys)
       | none => afterClose ys) := by
  induction xs with
  | nil => simp [afterClose]
  | cons c rest ih =>
    simp only [List.cons_append, afterClose]
    by_cases hc : (c == ')') = true
    · rw [if_pos hc, if_pos hc]
      rfl
    · rw [if_neg hc, if_neg hc]
      exact ih

theorem removeParens_no_close (l : Str) (h : ∀ c ∈ l, c ≠ ')') :
    removeParens l = l := by
  induction l with
  | nil => exact removeParens_nil
  | cons c rest ih =>
    rw [removeParens_cons]
    have hrest : ∀ d ∈ rest, d ≠ ')' := fun d hd => h d (List.mem_cons_of_mem _ hd)
    by_cases hc : (c == '(') = true
    · rw [if_pos hc, (afterClose_none_iff rest).mpr hrest, ih hrest]
    · rw [if_neg hc, ih hrest]

theorem removeParens_idem : ∀ l : Str, removeParens (removeParens l) = removeParens l
  | [] => by rw [removeParens_nil]; exact removeParens_nil
  | c :: rest => by
    rw [removeParens_cons]
    by_cases hc : (c == '(') = true
    · rw [if_pos hc]
      cases har : afterClose rest with
      | some r =>
        have hlt := afterClose_length har
        exact removeParens_idem r
      | none =>
        have hrest : ∀ d ∈ rest, d ≠ ')' := (afterClose_none_iff rest).mp har
        have hrp : removeParens rest = rest := removeParens_no_close rest hrest
        rw [hrp, removeParens_cons, if_pos hc, har, hrp]
    · rw [if_neg hc, removeParens_cons, if_neg hc,
        removeParens_idem rest]
termination_by l => l.length
decreasing_by
  · exact Nat.lt_trans hlt (Nat.lt_succ_self _)
  · simp

theorem removeParens_append_left (xs ys : Str) (h : ∀ c ∈ xs, c ≠ '(') :
    removeParens (xs ++ ys) = xs ++ removeParens ys := by
  induction xs with
  | nil => rfl
  | cons c rest ih =>
    have hc : (c == '(') = false := by
      have := h c (List.mem_cons_self _ _)
      simpa using this
    rw [List.cons_append, removeParens_cons, hc]
    simp only [Bool.false_eq_true, if_false, List.cons_append]
    rw [ih (fun d hd => h d (List.mem_cons_of_mem _ hd))]

theorem removeParens_append_right :
    ∀ (xs ys : Str), (∀ c ∈ ys, c ≠ '(') → (∀ c ∈ ys, c ≠ ')') →
      removeParens (xs ++ ys) = removeParens xs ++ ys
  | [], ys, h1, h2 => by
    rw [List.nil_append, removeParens_nil, List.nil_append]
    exact removeParens_no_close ys h2
  | c :: rest, ys, h1, h2 => by
    rw [List.cons_append, removeParens_cons, removeParens_cons]
    by_cases hc : (c == '(') = true
    · rw [if_pos hc, if_pos hc, afterClose_append rest ys]
      cases har : afterClose rest with
      | some r =>
        have hlt := afterClose_length har
        exact removeParens_append_right r ys h1 h2
      | none =>
        rw [(afterClose_none_iff ys).mpr h2]
        show c :: removeParens (rest ++ ys) = (c :: removeParens rest) ++ ys
        rw [removeParens_append_right rest ys h1 h2, List.cons_append]
    · rw [if_neg hc, if_neg hc, removeParens_append_right rest ys h1 h2,
        List.cons_append]
termination_by xs _ _ _ => xs.length
decreasing_by
  all_goals first
    | exact Nat.lt_trans hlt (Nat.lt_succ_self _)
    | simp

theorem dropWhile_append_all (p : Char → Bool) (xs ys : Str)
    (h : ∀ c ∈ xs, p c = true) :
    (xs ++ ys).dropWhile p = ys.dropWhile p := by
  induction xs with
  | nil => rfl
  | cons c rest ih =>
    rw [List.cons_append, List.dropWhile_cons, if_pos (h c (List.mem_cons_self _ _))]
    exact ih (fun d hd => h d (List.mem_cons_of_mem _ hd))

theorem dropWhile_all (p : Char → Bool) (xs : Str) (h : ∀ c ∈ xs, p c = true) :
    xs.dropWhile p = [] := by
  have := dropWhile_append_all p xs [] h
  simpa using this

theorem trimStr_ws_append (p z : Str) (h : ∀ c ∈ p, isSpaceChar c = true) :
    trimStr (p ++ z) = trimStr z := by
  unfold trimStr trimLeft
  rw [dropWhile_append_all _ p z h]

theorem trimRight_append_ws (u q : Str) (h : ∀ c ∈ q, isSpaceChar c = true) :
    trimRight (u ++ q) = trimRight u := by
  unfold trimRight
  rw [List.reverse_append,
    dropWhile_append_all _ q.reverse u.reverse
      (fun c hc => h c (List.mem_reverse.mp hc))]

theorem trimStr_append_ws (z q : Str) (h : ∀ c ∈ q, isSpaceChar c = true) :
    trimStr (z ++ q) = trimStr z := by
  unfold trimStr trimLeft
  cases hz : z.dropWhile isSpaceChar with
  | nil =>
    have hzall : ∀ c ∈ z, isSpaceChar c = true := List.dropWhile_eq_nil_iff.mp hz
    rw [dropWhile_all _ (z ++ q) (by
      intro c hc
      rcases List.mem_append.mp hc with hc | hc
      · exact hzall c hc
      · exact h c hc)]
  | cons d ds =>
    rw [List.dropWhile_append, hz]
    simp only [List.isEmpty_cons, Bool.false_eq_true, if_false]
    exact trimRight_append_ws (d :: ds) q h


theorem ws_ne_open {c : Char} (h : isSpaceChar c = true) : c ≠ '(' := by
  intro hc
  subst hc
  simp [isSpaceChar] at h

theorem ws_ne_close {c : Char} (h : isSpaceChar c = true) : c ≠ ')' := by
  intro hc
  subst hc
  simp [isSpaceChar] at h

theorem trim_removeParens_trim (x : Str) :
    trimStr (removeParens (trimStr x)) = trimStr (removeParens x) := by
  have htw : ∀ c ∈ x.takeWhile isSpaceChar, isSpaceChar c = true :=
    fun c hc => List.mem_takeWhile_imp hc
  have h1 : removeParens x = x.takeWhile isSpaceChar ++ removeParens (trimLeft x) := by
    conv_lhs => rw [← List.takeWhile_append_dropWhile isSpaceChar x]
    exact removeParens_append_left _ _ (fun c hc => ws_ne_open (htw c hc))
  have h2 : trimStr (removeParens x) = trimStr (removeParens (trimLeft x)) := by
    rw [h1]
    exact trimStr_ws_append _ _ htw
  have hq : ∀ c ∈ ((trimLeft x).reverse.takeWhile isSpaceChar).reverse,
      isSpaceChar c = true :=
    fun c hc => List.mem_takeWhile_imp (List.mem_reverse.mp hc)
  have hra : trimLeft x =
      trimRight (trimLeft x) ++ ((trimLeft x).reverse.takeWhile isSpaceChar).reverse := by
    conv_lhs => rw [← List.reverse_reverse (trimLeft x),
      ← List.takeWhile_append_dropWhile isSpaceChar (trimLeft x).reverse]
    rw [List.reverse_append]
    rfl
  have h3 : removeParens (trimLeft x) =
      removeParens (trimRight (trimLeft x)) ++
        ((trimLeft x).reverse.takeWhile isSpaceChar).reverse := by
    conv_lhs => rw [hra]
    exact removeParens_append_right _ _
      (fun c hc => ws_ne_open (hq c hc)) (fun c hc => ws_ne_close (hq c hc))
  have h4 : trimStr (removeParens (trimLeft x)) =
      trimStr (removeParens (trimRight (trimLeft x))) := by
    rw [h3]
    exact trimStr_append_ws _ _ hq
  show trimStr (removeParens (trimRight (trimLeft x))) = trimStr (removeParens x)
  rw [h2, h4]

theorem isWorkEvent_norm (t : Str) :
    isWorkEvent t =
      (!(isDefinitelyPersonal t) &&
        (meetAndGreetTest (trimStr (removeParens t)) ||
         minutesSuffixTest (trimStr (removeParens t)) ||
         houseSitSuffixTest (trimStr (removeParens t)) ||
         nailTrimTest (trimStr (removeParens t)))) := by
  cases t with
  | nil => rfl
  | cons c cs =>
    unfold isWorkEvent
    simp only [List.isEmpty_cons, Bool.false_eq_true, if_false]
    rw [isDefinitelyPersonal_trimStr, cleanTitle_eq, trim_removeParens_trim]
    cases hp : isDefinitelyPersonal (c :: cs)
    · simp
    · simp

/-- Counterexample to C5 as stated: stripping the parenthetical from
`"Bella 30 (massage)"` flips the classification, because the personal veto
is evaluated on the unstripped title and `massage` occurs only inside the
parentheses. -/
theorem C5_counterexample :
    isWorkEvent (w "Bella 30 (massage)") ≠
      isWorkEvent (removeParens (w "Bella 30 (massage)")) := by
  decide

/-- Claim C5 (amended): the work-pattern stage always sees the
parenthetical-stripped title, so classification is invariant under
stripping parenthesized groups for every title whose personal-veto result
is unchanged by the stripping (the veto reads the unstripped title, which
is what breaks the unconditional claim); the claim's own example
`isWorkEvent "Pixel 30 (forgot to cancel)" = isWorkEvent "Pixel 30"`
holds. -/
theorem C5_parenthetical_invariance :
    (∀ t : Str, isDefinitelyPersonal t = isDefinitelyPersonal (removeParens t) →
      isWorkEvent t = isWorkEvent (removeParens t)) ∧
    isWorkEvent (w "Pixel 30 (forgot to cancel)") = isWorkEvent (w "Pixel 30") := by
  constructor
  · intro t h
    rw [isWorkEvent_norm t, isWorkEvent_norm (removeParens t), h, removeParens_idem]
  · decide

/-- Witness for C5 at the claim's example title, whose personal-veto result
is unchanged by the stripping. -/
theorem C5_parenthetical_invariance_witness :
    isDefinitelyPersonal (w "Pixel 30 (forgot to cancel)") =
      isDefinitelyPersonal (removeParens (w "Pixel 30 (forgot to cancel)")) ∧
    isWorkEvent (w "Pixel 30 (forgot to cancel)") =
      isWorkEvent (removeParens (w "Pixel 30 (forgot to cancel)")) :=
  ⟨by decide, C5_parenthetical_invariance.1 _ (by decide)⟩

/- ### Claim C4: the multi-level sort comparator is a total preorder. -/

theorem lcmp_nil_le (c : Str) : lcmp [] c ≤ 0 := by
  cases c <;> simp [lcmp]

theorem lcmp_antisym : ∀ (a b : Str), lcmp b a = -(lcmp a b)
  | [], [] => rfl
  | [], _ :: _ => rfl
  | _ :: _, [] => rfl
  | x :: xs, y :: ys => by
    simp only [lcmp]
    by_cases hxy : x < y
    · rw [if_neg (lt_asymm hxy), if_pos hxy, if_pos hxy]
      norm_num
    · by_cases hyx : y < x
      · rw [if_pos hyx, if_neg hxy, if_pos hyx]
      · rw [if_neg hyx, if_neg hxy, if_neg hxy, if_neg hyx]
        exact lcmp_antisym xs ys

theorem lcmp_eq_zero_iff : ∀ (a b : Str), lcmp a b = 0 ↔ a = b
  | [], [] => by simp [lcmp]
  | [], _ :: _ => by simp [lcmp]
  | _ :: _, [] => by simp [lcmp]
  | x :: xs, y :: ys => by
    simp only [lcmp]
    by_cases hxy : x < y
    · rw [if_pos hxy]
      constructor
      · intro h; exact absurd h (by norm_num)
      · intro h
        obtain ⟨h1, -⟩ := List.cons.injEq .. |>.mp h
        exact absurd h1 (ne_of_lt hxy)
    · by_cases hyx : y < x
      · rw [if_neg hxy, if_pos hyx]
        constructor
        · intro h; exact absurd h (by norm_num)
        · intro h
          obtain ⟨h1, -⟩ := List.cons.injEq .. |>.mp h
          exact absurd h1.symm (ne_of_lt hyx)
      · have hxyeq : x = y := le_antisymm (not_lt.mp hyx) (not_lt.mp hxy)
        subst hxyeq
        rw [if_neg hxy, if_neg hyx]
        rw [lcmp_eq_zero_iff xs ys]
        simp

theorem lcmp_le_trans : ∀ (a b c : Str),
    lcmp a b ≤ 0 → lcmp b c ≤ 0 → lcmp a c ≤ 0
  | [], _, c, _, _ => lcmp_nil_le c
  | _ :: _, [], _, h1, _ => absurd h1 (by simp [lcmp])
  | _ :: _, _ :: _, [], _, h2 => absurd h2 (by simp [lcmp])
  | x :: xs, y :: ys, z :: zs, h1, h2 => by
    simp only [lcmp] at h1 h2 ⊢
    by_cases hxy : x < y
    · by_cases hyz : y < z
      · rw [if_pos (lt_trans hxy hyz)]
        norm_num
      · by_cases hzy : z < y
        · rw [if_neg hyz, if_pos hzy] at h2
          norm_num at h2
        · have : y = z := le_antisymm (not_lt.mp hzy) (not_lt.mp hyz)
          subst this
          rw [if_pos hxy]
          norm_num
    · by_cases hyx : y < x
      · rw [if_neg hxy, if_pos hyx] at h1
        norm_num at h1
      · have hxyeq : x = y := le_antisymm (not_lt.mp hyx) (not_lt.mp hxy)
        subst hxyeq
        rw [if_neg hxy, if_neg hyx] at h1
        by_cases hxz : x < z
        · rw [if_pos hxz]
          norm_num
        · by_cases hzx : z < x
          · rw [if_neg hxz, if_pos hzx] at h2
            norm_num at h2
          · rw [if_neg hxz, if_neg hzx] at h2 ⊢
            exact lcmp_le_trans xs ys zs h1 h2

theorem compareEvents_antisym (a b : Event) (f : Str) :
    compareEvents b a f = -(compareEvents a b f) := by
  unfold compareEvents
  by_cases h1 : (f == w "client") = true
  · rw [if_pos h1, if_pos h1]
    exact lcmp_antisym _ _
  · rw [if_neg h1, if_neg h1]
    by_cases h2 : (f == w "service") = true
    · rw [if_pos h2, if_pos h2]
      exact lcmp_antisym _ _
    · rw [if_neg h2, if_neg h2]
      by_cases h3 : (f == w "time") = true
      · rw [if_pos h3, if_pos h3]
        ring
      · rw [if_neg h3, if_neg h3]
        ring

theorem compareEvents_zero_trans (a b c : Event) (f : Str)
    (h1 : compareEvents a b f = 0) (h2 : compareEvents b c f = 0) :
    compareEvents a c f = 0 := by
  unfold compareEvents at h1 h2 ⊢
  by_cases hf1 : (f == w "client") = true
  · rw [if_pos hf1] at h1 h2 ⊢
    rw [lcmp_eq_zero_iff] at h1 h2 ⊢
    rw [h1, h2]
  · rw [if_neg hf1] at h1 h2 ⊢
    by_cases hf2 : (f == w "service") = true
    · rw [if_pos hf2] at h1 h2 ⊢
      rw [lcmp_eq_zero_iff] at h1 h2 ⊢
      rw [h1, h2]
    · rw [if_neg hf2] at h1 h2 ⊢
      by_cases hf3 : (f == w "time") = true
      · rw [if_pos hf3] at h1 h2 ⊢
        omega
      · rw [if_neg hf3] at h1 h2 ⊢
        omega

theorem compareEvents_le_trans (a b c : Event) (f : Str)
    (h1 : compareEvents a b f ≤ 0) (h2 : compareEvents b c f ≤ 0) :
    compareEvents a c f ≤ 0 := by
  unfold compareEvents at h1 h2 ⊢
  by_cases hf1 : (f == w "client") = true
  · rw [if_pos hf1] at h1 h2 ⊢
    exact lcmp_le_trans _ _ _ h1 h2
  · rw [if_neg hf1] at h1 h2 ⊢
    by_cases hf2 : (f == w "service") = true
    · rw [if_pos hf2] at h1 h2 ⊢
      exact lcmp_le_trans _ _ _ h1 h2
    · rw [if_neg hf2] at h1 h2 ⊢
      by_cases hf3 : (f == w "time") = true
      · rw [if_pos hf3] at h1 h2 ⊢
        omega
      · rw [if_neg hf3] at h1 h2 ⊢
        omega

theorem levelAdj_antisym (l : SortLevel) (a b : Event) :
    levelAdj l b a = -(levelAdj l a b) := by
  unfold levelAdj
  by_cases hd : (l.sortOrder == w "desc") = true
  · rw [if_pos hd, if_pos hd, compareEvents_antisym a b l.sortBy]
  · rw [if_neg hd, if_neg hd, compareEvents_antisym a b l.sortBy]

theorem levelAdj_zero_trans (l : SortLevel) (a b c : Event)
    (h1 : levelAdj l a b = 0) (h2 : levelAdj l b c = 0) : levelAdj l a c = 0 := by
  unfold levelAdj at h1 h2 ⊢
  by_cases hd : (l.sortOrder == w "desc") = true
  · rw [if_pos hd] at h1 h2 ⊢
    have := compareEvents_zero_trans a b c l.sortBy (by omega) (by omega)
    omega
  · rw [if_neg hd] at h1 h2 ⊢
    exact compareEvents_zero_trans a b c l.sortBy h1 h2

theorem levelAdj_le_trans (l : SortLevel) (a b c : Event)
    (h1 : levelAdj l a b ≤ 0) (h2 : levelAdj l b c ≤ 0) : levelAdj l a c ≤ 0 := by
  unfold levelAdj at h1 h2 ⊢
  by_cases hd : (l.sortOrder == w "desc") = true
  · rw [if_pos hd] at h1 h2 ⊢
    have hba : compareEvents b a l.sortBy ≤ 0 := by
      have := compareEvents_antisym a b l.sortBy
      omega
    have hcb : compareEvents c b l.sortBy ≤ 0 := by
      have := compareEvents_antisym b c l.sortBy
      omega
    have hca := compareEvents_le_trans c b a l.sortBy hcb hba
    have := compareEvents_antisym c a l.sortBy
    omega
  · rw [if_neg hd] at h1 h2 ⊢
    exact compareEvents_le_trans a b c l.sortBy h1 h2

theorem levelAdj_lt_of_le_lt (l : SortLevel) (a b c : Event)
    (h1 : levelAdj l a b ≤ 0) (h2 : levelAdj l b c < 0) : levelAdj l a c < 0 := by
  by_contra hge
  push_neg at hge
  have hca : levelAdj l c a ≤ 0 := by
    rw [levelAdj_antisym]
    omega
  have hcb : levelAdj l c b ≤ 0 := levelAdj_le_trans l c a b hca h1
  rw [levelAdj_antisym] at hcb
  omega

theorem levelAdj_lt_of_lt_le (l : SortLevel) (a b c : Event)
    (h1 : levelAdj l a b < 0) (h2 : levelAdj l b c ≤ 0) : levelAdj l a c < 0 := by
  by_contra hge
  push_neg at hge
  have hca : levelAdj l c a ≤ 0 := by
    rw [levelAdj_antisym]
    omega
  have hba : levelAdj l b a ≤ 0 := levelAdj_le_trans l b c a h2 hca
  rw [levelAdj_antisym] at hba
  omega

theorem multiCmp_cons (l : SortLevel) (rest : List SortLevel) (a b : Event) :
    multiCmp (l :: rest) a b =
      (if levelAdj l a b != 0 then levelAdj l a b else multiCmp rest a b) := rfl

theorem multiCmp_antisym : ∀ (lv : List SortLevel) (a b : Event),
    multiCmp lv b a = -(multiCmp lv a b)
  | [], a, b => by
    simp only [multiCmp]
    ring
  | l :: rest, a, b => by
    rw [multiCmp_cons, multiCmp_cons, levelAdj_antisym]
    by_cases hx : levelAdj l a b = 0
    · simp only [hx, neg_zero, bne_self_eq_false, Bool.false_eq_true, if_false]
      exact multiCmp_antisym rest a b
    · rw [if_pos (bne_iff_ne.mpr (by omega : -(levelAdj l a b) ≠ 0)),
        if_pos (bne_iff_ne.mpr hx)]

theorem multiCmp_le_trans : ∀ (lv : List SortLevel) (a b c : Event),
    multiCmp lv a b ≤ 0 → multiCmp lv b c ≤ 0 → multiCmp lv a c ≤ 0
  | [], a, b, c, h1, h2 => by
    simp only [multiCmp] at h1 h2 ⊢
    omega
  | l :: rest, a, b, c, h1, h2 => by
    rw [multiCmp_cons] at h1 h2 ⊢
    by_cases hab : levelAdj l a b = 0
    · by_cases hbc : levelAdj l b c = 0
      · have hac : levelAdj l a c = 0 := levelAdj_zero_trans l a b c hab hbc
        simp only [hab, hbc, hac, bne_self_eq_false, Bool.false_eq_true, if_false] at h1 h2 ⊢
        exact multiCmp_le_trans rest a b c h1 h2
      · have hbc' : levelAdj l b c < 0 := by
          rw [if_pos (bne_iff_ne.mpr hbc)] at h2
          omega
        have hac : levelAdj l a c < 0 :=
          levelAdj_lt_of_le_lt l a b c (by omega) hbc'
        rw [if_pos (bne_iff_ne.mpr (by omega : levelAdj l a c ≠ 0))]
        omega
    · have hab' : levelAdj l a b < 0 := by
        rw [if_pos (bne_iff_ne.mpr hab)] at h1
        omega
      have hbc' : levelAdj l b c ≤ 0 := by
        by_cases hbc : levelAdj l b c = 0
        · omega
        · rw [if_pos (bne_iff_ne.mpr hbc)] at h2
          exact h2
      have hac : levelAdj l a c < 0 := levelAdj_lt_of_lt_le l a b c hab' hbc'
      rw [if_pos (bne_iff_ne.mpr (by omega : levelAdj l a c ≠ 0))]
      omega

theorem multiCmp_total (lv : List SortLevel) (a b : Event) :
    multiCmp lv a b ≤ 0 ∨ multiCmp lv b a ≤ 0 := by
  rcases le_or_lt (multiCmp lv a b) 0 with h | h
  · exact Or.inl h
  · right
    rw [multiCmp_antisym]
    omega

theorem levelsCmp_cons (l : SortLevel) (rest : List SortLevel) (a b : Event) :
    levelsCmp (l :: rest) a b =
      (if levelAdj l a b != 0 then levelAdj l a b else levelsCmp rest a b) := rfl

theorem multiCmp_le_spec : ∀ (lv : List SortLevel) (a b : Event),
    multiCmp lv a b ≤ 0 →
      levelsCmp lv a b ≤ 0 ∧ (levelsCmp lv a b = 0 → tsValue a.start ≤ tsValue b.start)
  | [], a, b, h => by
    simp only [multiCmp] at h
    simp only [levelsCmp]
    exact ⟨le_refl 0, fun _ => by omega⟩
  | l :: rest, a, b, h => by
    rw [multiCmp_cons] at h
    rw [levelsCmp_cons]
    by_cases hx : levelAdj l a b = 0
    · simp only [hx, bne_self_eq_false, Bool.false_eq_true, if_false] at h ⊢
      exact multiCmp_le_spec rest a b h
    · rw [if_pos (bne_iff_ne.mpr hx)] at h ⊢
      exact ⟨h, fun h0 => absurd h0 hx⟩

theorem multiCmp_fallback : ∀ (lv : List SortLevel) (a b : Event),
    (∀ l ∈ lv, compareEvents a b l.sortBy = 0) →
      multiCmp lv a b = tsValue a.start - tsValue b.start
  | [], _, _, _ => rfl
  | l :: rest, a, b, h => by
    have hl : compareEvents a b l.sortBy = 0 := h l (List.mem_cons_self _ _)
    have hadj : levelAdj l a b = 0 := by
      unfold levelAdj
      rw [hl]
      by_cases hd : (l.sortOrder == w "desc") = true
      · rw [if_pos hd]
        ring
      · rw [if_neg hd]
    rw [multiCmp_cons]
    simp only [hadj, bne_self_eq_false, Bool.false_eq_true, if_false]
    exact multiCmp_fallback rest a b (fun l' hl' => h l' (List.mem_cons_of_mem _ hl'))

/-- Claim C4: for every non-empty sort specification, `sortEventsMultiLevel`
is idempotent, no two adjacent output events violate the specification's
lexicographic level order — and on all-level ties the order is start-time
ascending — and whenever every level compares equal the comparator itself
falls back to the chronological start comparison, making the delivered
order a deterministic total order. -/
theorem C4_sort_total_order :
    ∀ (events : List Event) (lv : List SortLevel), lv ≠ [] →
      sortEventsMultiLevel (sortEventsMultiLevel events lv) lv =
          sortEventsMultiLevel events lv ∧
      List.Chain' (fun a b => levelsCmp lv a b ≤ 0 ∧
          (levelsCmp lv a b = 0 → tsValue a.start ≤ tsValue b.start))
        (sortEventsMultiLevel events lv) ∧
      (∀ a b : Event, (∀ l ∈ lv, compareEvents a b l.sortBy = 0) →
        multiCmp lv a b = tsValue a.start - tsValue b.start) := by
  intro events lv hlv
  have hne : lv.isEmpty = false := by
    cases lv
    · exact absurd rfl hlv
    · rfl
  have htrans : ∀ (a b c : Event), decide (multiCmp lv a b ≤ 0) = true →
      decide (multiCmp lv b c ≤ 0) = true → decide (multiCmp lv a c ≤ 0) = true := by
    intro a b c h1 h2
    rw [decide_eq_true_eq] at h1 h2 ⊢
    exact multiCmp_le_trans lv a b c h1 h2
  have htotal : ∀ (a b : Event),
      (decide (multiCmp lv a b ≤ 0) || decide (multiCmp lv b a ≤ 0)) = true := by
    intro a b
    rw [Bool.or_eq_true, decide_eq_true_eq, decide_eq_true_eq]
    exact multiCmp_total lv a b
  have hpair := @List.sorted_mergeSort Event
    (fun a b => decide (multiCmp lv a b ≤ 0)) htrans htotal events
  refine ⟨?_, ?_, fun a b h => multiCmp_fallback lv a b h⟩
  · simp only [sortEventsMultiLevel, hne, Bool.false_eq_true, if_false]
    exact List.mergeSort_of_sorted hpair
  · simp only [sortEventsMultiLevel, hne, Bool.false_eq_true, if_false]
    have hp2 : List.Pairwise (fun a b : Event => levelsCmp lv a b ≤ 0 ∧
        (levelsCmp lv a b = 0 → tsValue a.start ≤ tsValue b.start))
        (events.mergeSort (fun a b => decide (multiCmp lv a b ≤ 0))) := by
      refine List.Pairwise.imp ?_ hpair
      intro a b hab
      rw [decide_eq_true_eq] at hab
      exact multiCmp_le_spec lv a b hab
    exact hp2.chain'

/-- Witness for C4: a concrete two-event list and the one-level
client-ascending specification; the hypothesis (non-empty specification)
is discharged concretely and the idempotence conclusion instantiated. -/
theorem C4_sort_total_order_witness :
    ([(⟨w "client", w "asc"⟩ : SortLevel)] ≠ ([] : List SortLevel)) ∧
    sortEventsMultiLevel
        (sortEventsMultiLevel
          [⟨w "Milo 45", ⟨⟨2025, 10, 16⟩, 11, 0⟩, ⟨⟨2025, 10, 16⟩, 11, 45⟩, [], none⟩,
           ⟨w "Bella 30", ⟨⟨2025, 10, 15⟩, 10, 0⟩, ⟨⟨2025, 10, 15⟩, 10, 30⟩, [], none⟩]
          [⟨w "client", w "asc"⟩])
        [⟨w "client", w "asc"⟩] =
      sortEventsMultiLevel
        [⟨w "Milo 45", ⟨⟨2025, 10, 16⟩, 11, 0⟩, ⟨⟨2025, 10, 16⟩, 11, 45⟩, [], none⟩,
         ⟨w "Bella 30", ⟨⟨2025, 10, 15⟩, 10, 0⟩, ⟨⟨2025, 10, 15⟩, 10, 30⟩, [], none⟩]
        [⟨w "client", w "asc"⟩] :=
  ⟨by decide,
   (C4_sort_total_order
     [⟨w "Milo 45", ⟨⟨2025, 10, 16⟩, 11, 0⟩, ⟨⟨2025, 10, 16⟩, 11, 45⟩, [], none⟩,
      ⟨w "Bella 30", ⟨⟨2025, 10, 15⟩, 10, 0⟩, ⟨⟨2025, 10, 15⟩, 10, 30⟩, [], none⟩]
     [⟨w "client", w "asc"⟩] (by decide)).1⟩
